import Mathlib

/-!
Verification of the task-tree state machine and session store of the
im-back repository.

The JavaScript source (src/src/main/tree-state.js, session-store.js,
app-controller.js) is shallowly embedded here:

* Node ids are modelled as natural numbers.  The source allocates ids with
  `randomUUID()`; freshness of the random id is modelled by a counter
  `nextId` carried in the state, with id 0 playing the role of the only
  falsy JavaScript id (the empty string).  `createInitialState` allocates
  the root as id 1.
* Wall-clock timestamps (`nowIso()`, `new Date()`) are modelled by an
  explicit `now : Nat` argument per operation; all `nowIso()` calls inside
  one operation yield that value.
* The JavaScript object holding the nodes is modelled as an association
  list with JavaScript object semantics: assigning an existing key
  replaces the value in place, assigning a new key appends it.
* `deepClone` (JSON round trip) is the identity on immutable values.
* Thrown mutation-validation errors are modelled by the `err` constructor
  of `OpOut`, which also records the machine state at throw time.
* The iterative `collectSubtree` loop of the source does not terminate on
  cyclic child graphs; it is embedded with an explicit fuel argument and
  `softDeleteInternal` returns `none` when the fuel chosen for the state
  runs out.  The fuel bound exceeds the iteration count of every
  terminating run of the source loop.
-/

inductive Status where
  | active
  | deleted
deriving DecidableEq, Repr

structure Node where
  id : Nat
  parentId : Option Nat
  title : String
  childrenIds : List Nat
  status : Status
  createdAt : Nat
  updatedAt : Nat
  deletedAt : Option Nat
deriving DecidableEq, Repr

abbrev NodeMap := List (Nat × Node)

/-- Lookup with JavaScript object semantics: the first binding of the key wins. -/
def lookupNode (m : NodeMap) (k : Nat) : Option Node :=
  match m with
  | [] => none
  | (k1, v) :: rest => if k1 = k then some v else lookupNode rest k

/-- Key assignment with JavaScript object semantics: replace the existing
binding in place, or append a new binding at the end. -/
def setNode (m : NodeMap) (k : Nat) (v : Node) : NodeMap :=
  match m with
  | [] => [(k, v)]
  | (k1, v1) :: rest => if k1 = k then (k, v) :: rest else (k1, v1) :: setNode rest k v

structure Snapshot where
  rootId : Nat
  focusedNodeId : Nat
  nodes : NodeMap
deriving DecidableEq, Repr

structure TreeState where
  sessionId : String
  rootId : Nat
  focusedNodeId : Nat
  nodes : NodeMap
  undoStack : List Snapshot
  redoStack : List Snapshot
  nextId : Nat
deriving DecidableEq, Repr

def UNNAMED_TITLE : String := "Untitled task"

def MAX_HISTORY : Nat := 200

/-- Character set stripped by `String.prototype.trim`, restricted to the
ASCII whitespace characters. -/
def isJsSpace (c : Char) : Bool :=
  c = ' ' || c = '\t' || c = '\n' || c = '\r'

/-- Embedding of `String.prototype.trim` (on the ASCII whitespace subset),
written with structural recursion so that concrete proofs can evaluate it. -/
def jsTrim (t : String) : String :=
  String.mk (((t.data.dropWhile isJsSpace).reverse.dropWhile isJsSpace).reverse)

/-- Embedding of `sanitizeTitle`: trim, and replace an empty result by the
placeholder title. -/
def sanitizeTitle (title : String) : String :=
  let next := jsTrim title
  if next.length > 0 then next else UNNAMED_TITLE

/-- Embedding of `createNode`: a fresh active node stamped with the current
time. -/
def createNode (id : Nat) (parentId : Option Nat) (title : String) (now : Nat) : Node :=
  { id := id
    parentId := parentId
    title := sanitizeTitle title
    childrenIds := []
    status := .active
    createdAt := now
    updatedAt := now
    deletedAt := none }

/-- Embedding of `createInitialState`; the root takes id 1 and the fresh-id
counter starts above it. -/
def createInitialState (sessionId : String) (now : Nat) : TreeState :=
  let rootId := 1
  { sessionId := sessionId
    rootId := rootId
    focusedNodeId := rootId
    nodes := [(rootId, createNode rootId none "Session Root" now)]
    undoStack := []
    redoStack := []
    nextId := 2 }

/-- Embedding of `TreeStateMachine.snapshot`. -/
def snapshotOf (s : TreeState) : Snapshot :=
  { rootId := s.rootId, focusedNodeId := s.focusedNodeId, nodes := s.nodes }

/-- Embedding of `TreeStateMachine.ensureFocus`. -/
def ensureFocus (s : TreeState) : TreeState :=
  match lookupNode s.nodes s.focusedNodeId with
  | some n => if n.status = .active then s else { s with focusedNodeId := s.rootId }
  | none => { s with focusedNodeId := s.rootId }

/-- Embedding of `TreeStateMachine.applySnapshot`. -/
def applySnapshot (s : TreeState) (snap : Snapshot) : TreeState :=
  ensureFocus { s with
    rootId := snap.rootId
    focusedNodeId := snap.focusedNodeId
    nodes := snap.nodes }

/-- Embedding of `TreeStateMachine.pushUndo`: push the current snapshot,
drop the oldest entry when the stack exceeds `MAX_HISTORY`, clear the redo
stack. -/
def pushUndo (s : TreeState) : TreeState :=
  let pushed := s.undoStack ++ [snapshotOf s]
  { s with
    undoStack := if MAX_HISTORY < pushed.length then pushed.drop 1 else pushed
    redoStack := [] }

inductive Err where
  | nodeNotFound (id : Nat)
  | rootProtected
deriving DecidableEq, Repr

/-- Outcome of one state-machine operation.  Thrown validation errors carry
the machine state as it was at throw time. -/
inductive OpOut (α : Type) where
  | ok (value : α) (state : TreeState)
  | err (e : Err) (state : TreeState)
deriving DecidableEq, Repr

def opState {α : Type} : OpOut α → TreeState
  | .ok _ st => st
  | .err _ st => st

/-- Embedding of `TreeStateMachine.assertNode`: `some` exactly when the id
resolves to an active node. -/
def assertNode (s : TreeState) (nodeId : Nat) : Option Node :=
  match lookupNode s.nodes nodeId with
  | some n => if n.status = .active then some n else none
  | none => none

/-- Embedding of `TreeStateMachine.addChild`.  The returned value is the
new node id.  The source stores the new node object under the fresh key and
mutates the parent object in place; both updates are reproduced on the
association list. -/
def addChild (s : TreeState) (parentId : Nat) (title : String) (now : Nat) : OpOut Nat :=
  match assertNode s parentId with
  | none => .err (.nodeNotFound parentId) s
  | some parent =>
    let s1 := pushUndo s
    let id := s1.nextId
    let node := createNode id (some parent.id) title now
    let parent1 := { parent with childrenIds := parent.childrenIds ++ [id], updatedAt := now }
    let nodes1 := setNode s1.nodes parentId parent1
    let nodes2 := setNode nodes1 id node
    .ok id { s1 with nodes := nodes2, focusedNodeId := id, nextId := s1.nextId + 1 }

/-- Embedding of `TreeStateMachine.addSibling`: resolve the parent (the
root when the node has none) and delegate to `addChild`. -/
def addSibling (s : TreeState) (nodeId : Nat) (title : String) (now : Nat) : OpOut Nat :=
  match assertNode s nodeId with
  | none => .err (.nodeNotFound nodeId) s
  | some node => addChild s (node.parentId.getD s.rootId) title now

/-- Embedding of `TreeStateMachine.renameNode`. -/
def renameNode (s : TreeState) (nodeId : Nat) (title : String) (now : Nat) : OpOut Unit :=
  match assertNode s nodeId with
  | none => .err (.nodeNotFound nodeId) s
  | some node =>
    let s1 := pushUndo s
    let node1 := { node with title := sanitizeTitle title, updatedAt := now }
    .ok () { s1 with nodes := setNode s1.nodes nodeId node1 }

/-- Embedding of `TreeStateMachine.focusNode`: no undo push, only the
focused id changes. -/
def focusNode (s : TreeState) (nodeId : Nat) : OpOut Unit :=
  match assertNode s nodeId with
  | none => .err (.nodeNotFound nodeId) s
  | some node => .ok () { s with focusedNodeId := node.id }

/-- Embedding of the `collectSubtree` worklist loop.  The head of the list
is the top of the JavaScript stack (`pop` takes the last pushed element, so
children are explored last-pushed first).  `fuel` counts remaining loop
iterations; `none` signals that the source loop would still be running. -/
def collectSubtreeAux (nodes : NodeMap) : Nat → List Nat → List Nat → Option (List Nat)
  | _, [], all => some all
  | 0, _ :: _, _ => none
  | fuel + 1, currentId :: rest, all =>
    if currentId = 0 then collectSubtreeAux nodes fuel rest all
    else
      match lookupNode nodes currentId with
      | none => collectSubtreeAux nodes fuel rest all
      | some node =>
        if node.status = .active then
          collectSubtreeAux nodes fuel (node.childrenIds.reverse ++ rest) (all ++ [currentId])
        else
          collectSubtreeAux nodes fuel rest all

def totalChildEntries (m : NodeMap) : Nat :=
  m.foldl (fun acc kv => acc + kv.2.childrenIds.length) 0

/-- Fuel that dominates the iteration count of every terminating run of the
source loop: a terminating run visits only repetition-free paths of the
child graph, of which there are fewer than this bound. -/
def collectFuel (m : NodeMap) : Nat :=
  (totalChildEntries m + 2) ^ (m.length + 2) + 1

/-- Embedding of `TreeStateMachine.collectSubtree`. -/
def collectSubtree (s : TreeState) (nodeId : Nat) : Option (List Nat) :=
  collectSubtreeAux s.nodes (collectFuel s.nodes) [nodeId] []

/-- Soft-delete stamp applied to one collected node. -/
def markDeleted (now : Nat) (n : Node) : Node :=
  { n with status := .deleted, deletedAt := some now, updatedAt := now }

/-- Embedding of the marking loop of `softDeleteInternal`: every collected
id present in the map receives the shared deletion stamp. -/
def markAll (now : Nat) : NodeMap → List Nat → NodeMap
  | m, [] => m
  | m, id :: rest =>
    match lookupNode m id with
    | some target => markAll now (setNode m id (markDeleted now target)) rest
    | none => markAll now m rest

/-- Embedding of `TreeStateMachine.softDeleteInternal`.  The returned value
is `nextFocusId`; `none` models divergence of the subtree collection. -/
def softDeleteInternal (s : TreeState) (nodeId : Nat) (now : Nat) : Option (OpOut Nat) :=
  match assertNode s nodeId with
  | none => some (.err (.nodeNotFound nodeId) s)
  | some node =>
    if node.id = s.rootId then some (.err .rootProtected s)
    else
      let s1 := pushUndo s
      match collectSubtree s1 nodeId with
      | none => none
      | some nodeIds =>
        let m1 := markAll now s1.nodes nodeIds
        let parentId := node.parentId.getD s1.rootId
        match lookupNode m1 parentId with
        | some parent =>
          if parent.status = .active then
            let parent1 := { parent with
              childrenIds := parent.childrenIds.filter (fun childId => childId ≠ node.id)
              updatedAt := now }
            let s2 := ensureFocus { s1 with
              nodes := setNode m1 parentId parent1
              focusedNodeId := parent.id }
            some (.ok s2.focusedNodeId s2)
          else
            let s2 := ensureFocus { s1 with nodes := m1, focusedNodeId := s1.rootId }
            some (.ok s2.focusedNodeId s2)
        | none =>
          let s2 := ensureFocus { s1 with nodes := m1, focusedNodeId := s1.rootId }
          some (.ok s2.focusedNodeId s2)

/-- Embedding of `TreeStateMachine.completeNode`. -/
def completeNode (s : TreeState) (nodeId : Nat) (now : Nat) : Option (OpOut Nat) :=
  softDeleteInternal s nodeId now

/-- Embedding of `TreeStateMachine.deleteNode`. -/
def deleteNode (s : TreeState) (nodeId : Nat) (now : Nat) : Option (OpOut Nat) :=
  softDeleteInternal s nodeId now

/-- Embedding of `TreeStateMachine.undo`: pop the last undo snapshot, push
the current snapshot onto the redo stack, restore. -/
def undo (s : TreeState) : TreeState :=
  match s.undoStack.getLast? with
  | none => s
  | some previous =>
    applySnapshot
      { s with
        undoStack := s.undoStack.dropLast
        redoStack := s.redoStack ++ [snapshotOf s] }
      previous

/-- Embedding of `TreeStateMachine.redo`; note that the push onto the undo
stack here is not capped in the source. -/
def redo (s : TreeState) : TreeState :=
  match s.redoStack.getLast? with
  | none => s
  | some next =>
    applySnapshot
      { s with
        redoStack := s.redoStack.dropLast
        undoStack := s.undoStack ++ [snapshotOf s] }
      next

/-! ## Session store (session-store.js): debounced writes and snapshot restore -/

/-- Observable debounce state of the `SessionStore`: the pending deep-copied
state, whether a timer is armed, how many timers were ever armed
(`setTimeout` calls), and the sequence of completed disk writes of the
active file. -/
structure DebounceStore where
  pendingState : Option TreeState
  timerArmed : Bool
  timersStarted : Nat
  writes : List TreeState
deriving DecidableEq, Repr

/-- Embedding of `SessionStore.scheduleStateWrite`: store the latest pending
state and arm a timer only when none is armed yet. -/
def scheduleStateWrite (st : DebounceStore) (state : TreeState) : DebounceStore :=
  if st.timerArmed then { st with pendingState := some state }
  else { st with
    pendingState := some state
    timerArmed := true
    timersStarted := st.timersStarted + 1 }

/-- Embedding of the debounce timer callback of `scheduleStateWrite`: clear
the timer, take the pending state, and write it if present. -/
def fireTimer (st : DebounceStore) : DebounceStore :=
  if st.timerArmed then
    let st1 := { st with timerArmed := false }
    match st1.pendingState with
    | none => st1
    | some nextState => { st1 with pendingState := none, writes := st1.writes ++ [nextState] }
  else st

structure DateParts where
  year : Nat
  month : Nat
  day : Nat
  hour : Nat
  minute : Nat
  second : Nat
deriving DecidableEq, Repr

/-- Embedding of `pad`: `padStart(2, "0")` on a decimal numeral. -/
def padTwo (n : Nat) : String :=
  let s := toString n
  if s.length < 2 then "0" ++ s else s

/-- Embedding of `timestampForFile`: format `YYYY-MM-DD_HH-mm-ss`. -/
def timestampForFile (d : DateParts) : String :=
  toString d.year ++ "-" ++ padTwo d.month ++ "-" ++ padTwo d.day ++ "_" ++
    padTwo d.hour ++ "-" ++ padTwo d.minute ++ "-" ++ padTwo d.second

/-- Embedding of `SessionStore.createSessionId`. -/
def createSessionId (d : DateParts) : String :=
  timestampForFile d

structure RestoreResult where
  newSessionId : String
  eventsLogName : String
  restoredState : TreeState
deriving DecidableEq, Repr

/-- Embedding of the session-id allocation and state rebuild of
`SessionStore.restoreToSnapshot`.  The `files` argument lists the file
names already present in the sessions directory; the source computes the
new session id from the clock alone and never consults them (there is no
suffixing loop in `restoreToSnapshot`, unlike `initSession`). -/
def restoreToSnapshot (_files : List String) (now : DateParts) (snapshotState : TreeState) :
    RestoreResult :=
  let newSessionId := createSessionId now
  { newSessionId := newSessionId
    eventsLogName := newSessionId ++ ".events.log"
    restoredState :=
      { sessionId := newSessionId
        rootId := snapshotState.rootId
        focusedNodeId := snapshotState.rootId
        nodes := snapshotState.nodes
        undoStack := []
        redoStack := []
        nextId := snapshotState.nextId } }

/-- Embedding of the session-id allocation loop of `SessionStore.initSession`:
append `-N` suffixes until the event-log name is free.  The source loop is
unbounded; fuel `files.length + 1` always suffices because the candidates
are pairwise distinct. -/
def allocSessionIdAux (files : List String) (base : String) : Nat → Nat → String
  | 0, suffix => base ++ "-" ++ toString suffix
  | fuel + 1, suffix =>
    let candidate := if suffix = 0 then base else base ++ "-" ++ toString suffix
    if (candidate ++ ".events.log") ∈ files then allocSessionIdAux files base fuel (suffix + 1)
    else candidate

/-- Session id chosen by `initSession` for a fresh session. -/
def initSessionId (files : List String) (now : DateParts) : String :=
  allocSessionIdAux files (createSessionId now) (files.length + 1) 0

/-! ## State predicates used by the theorems -/

/-- Does the id resolve to a node with active status in the map? -/
def isActiveIn (m : NodeMap) (id : Nat) : Bool :=
  match lookupNode m id with
  | some n => n.status = .active
  | none => false

/-- Focus invariant of the spec: `focusedNodeId` resolves to an active node. -/
def focusOk (s : TreeState) : Bool :=
  isActiveIn s.nodes s.focusedNodeId

def rootActive (s : TreeState) : Bool :=
  isActiveIn s.nodes s.rootId

/-- The root id occurs in nobody's `childrenIds` (spec: only non-root nodes
are children). -/
def rootNotChild (s : TreeState) : Bool :=
  s.nodes.all (fun kv => kv.2.childrenIds.all (fun c => c ≠ s.rootId))

/-- Every map entry stores a node whose `id` field equals its key, as the
source maintains by construction. -/
def keysMatch (s : TreeState) : Bool :=
  s.nodes.all (fun kv => kv.2.id = kv.1)

/-- Every key and every child reference is below the fresh-id counter. -/
def idsBounded (s : TreeState) : Bool :=
  s.nodes.all (fun kv => kv.1 < s.nextId && kv.2.childrenIds.all (fun c => c < s.nextId))

/-- A history snapshot whose own root is active, as holds for every snapshot
the machine pushes from a healthy state. -/
def goodSnap (snap : Snapshot) : Bool :=
  isActiveIn snap.nodes snap.rootId

def stacksGood (s : TreeState) : Bool :=
  s.undoStack.all goodSnap && s.redoStack.all goodSnap

def stackLoad (s : TreeState) : Nat :=
  s.undoStack.length + s.redoStack.length

/-- The capped push performed by `pushUndo` on the undo stack alone. -/
def pushCapped (stack : List Snapshot) (snap : Snapshot) : List Snapshot :=
  let pushed := stack ++ [snap]
  if MAX_HISTORY < pushed.length then pushed.drop 1 else pushed

/-- The last `n` elements of a list. -/
def lastN (n : Nat) (l : List Snapshot) : List Snapshot :=
  l.drop (l.length - n)

/-! ## Command sequences -/

/-- One mutating command of the state machine (undo and redo excluded). -/
inductive MutCmd where
  | child (parentId : Nat) (title : String) (now : Nat)
  | sibling (nodeId : Nat) (title : String) (now : Nat)
  | rename (nodeId : Nat) (title : String) (now : Nat)
  | complete (nodeId : Nat) (now : Nat)
  | delete (nodeId : Nat) (now : Nat)

/-- Run one mutating command, `none` unless it succeeds. -/
def applyMut (c : MutCmd) (s : TreeState) : Option TreeState :=
  match c with
  | .child p t now =>
    match addChild s p t now with
    | .ok _ st => some st
    | .err _ _ => none
  | .sibling n t now =>
    match addSibling s n t now with
    | .ok _ st => some st
    | .err _ _ => none
  | .rename n t now =>
    match renameNode s n t now with
    | .ok _ st => some st
    | .err _ _ => none
  | .complete n now =>
    match completeNode s n now with
    | some (.ok _ st) => some st
    | _ => none
  | .delete n now =>
    match deleteNode s n now with
    | some (.ok _ st) => some st
    | _ => none

/-- Run a sequence of mutating commands, requiring every one to succeed. -/
def runMut : TreeState → List MutCmd → Option TreeState
  | s, [] => some s
  | s, c :: cs =>
    match applyMut c s with
    | none => none
    | some s1 => runMut s1 cs

/-- Snapshots of the states each successful command of the run starts from
(command number k is issued in the k-th listed state). -/
def mutSnaps : TreeState → List MutCmd → List Snapshot
  | _, [] => []
  | s, c :: cs =>
    match applyMut c s with
    | none => []
    | some s1 => snapshotOf s :: mutSnaps s1 cs

/-- Is the command an `addChild`/`addSibling`? -/
def isAdd : MutCmd → Bool
  | .child _ _ _ => true
  | .sibling _ _ _ => true
  | _ => false

/-- Property bundle for claim C1: undoing right after a command restores
the prior node map, root and focus, and redoing right after that undo
restores the post-command node map, root and focus. -/
def UndoRedoRestores (s s1 : TreeState) : Prop :=
  (undo s1).nodes = s.nodes ∧ (undo s1).focusedNodeId = s.focusedNodeId ∧
  (undo s1).rootId = s.rootId ∧
  (redo (undo s1)).nodes = s1.nodes ∧ (redo (undo s1)).focusedNodeId = s1.focusedNodeId ∧
  (redo (undo s1)).rootId = s1.rootId

/-- Concrete sample session used by witnesses: a root with one child. -/
def sampleState : TreeState := createInitialState "sample" 0

def sampleTwo : TreeState := opState (addChild sampleState 1 "task a" 1)

/-- The sample root node after the first child was attached. -/
def sampleRootNode : Node :=
  { id := 1
    parentId := none
    title := "Session Root"
    childrenIds := [2]
    status := .active
    createdAt := 0
    updatedAt := 1
    deletedAt := none }

/-- State carried by an optional soft-delete outcome (`none`, the diverging
case, falls back to a dummy state; witnesses only use it on `some`). -/
def optOpState (o : Option (OpOut Nat)) : TreeState :=
  match o with
  | some r => opState r
  | none => createInitialState "" 0

/-- Soft-delete cascade invariant named by claim C9: every node whose
parent (when it resolves at all) has status deleted is itself deleted. -/
def cascadeInv (s : TreeState) : Bool :=
  s.nodes.all (fun kv =>
    match kv.2.parentId with
    | none => true
    | some p =>
      match lookupNode s.nodes p with
      | none => true
      | some pv => !(pv.status = .deleted) || (kv.2.status = .deleted))

/-- Plain active node used by the C9 counterexample state. -/
def cexNode (id : Nat) (parentId : Option Nat) (children : List Nat) : Node :=
  { id := id
    parentId := parentId
    title := "t"
    childrenIds := children
    status := .active
    createdAt := 0
    updatedAt := 0
    deletedAt := none }

/-- Counterexample state for C9: all nodes active (so the cascade invariant
holds) and the root active, but node 2 lists its own parent 3 among its
childrenIds, so deleting 2 sweeps 3 into the collected subtree. -/
def cexState : TreeState :=
  { sessionId := "cex"
    rootId := 1
    focusedNodeId := 1
    nodes := [(1, cexNode 1 none [2, 3]), (2, cexNode 2 (some 3) [3]), (3, cexNode 3 (some 1) [])]
    undoStack := []
    redoStack := []
    nextId := 4 }

/-! ## Basic lemmas about the association-list node map -/

theorem lookupNode_setNode (m : NodeMap) (k : Nat) (v : Node) (j : Nat) :
    lookupNode (setNode m k v) j = if k = j then some v else lookupNode m j := by
  induction m with
  | nil => by_cases h : k = j <;> simp [setNode, lookupNode, h]
  | cons kv rest ih =>
    obtain ⟨k1, v1⟩ := kv
    by_cases h1 : k1 = k
    · subst h1
      by_cases h2 : k1 = j <;> simp [setNode, lookupNode, h2]
    · by_cases h2 : k1 = j
      · have hkj : ¬k = j := fun hh => h1 (h2.trans hh.symm)
        have hjk : ¬j = k := fun hh => hkj hh.symm
        simp [setNode, lookupNode, h1, h2, hkj, hjk]
      · simp [setNode, lookupNode, h1, h2, ih]

theorem lookupNode_mem (m : NodeMap) (k : Nat) (v : Node)
    (h : lookupNode m k = some v) : (k, v) ∈ m := by
  induction m with
  | nil => simp [lookupNode] at h
  | cons kv rest ih =>
    obtain ⟨k1, v1⟩ := kv
    by_cases h1 : k1 = k
    · subst h1
      simp [lookupNode] at h
      simp [h]
    · simp [lookupNode, h1] at h
      exact List.mem_cons_of_mem _ (ih h)

theorem markDeleted_idem (now : Nat) (n : Node) :
    markDeleted now (markDeleted now n) = markDeleted now n := rfl

theorem lookupNode_markAll_notMem (now : Nat) (ids : List Nat) (m : NodeMap) (j : Nat)
    (h : j ∉ ids) : lookupNode (markAll now m ids) j = lookupNode m j := by
  induction ids generalizing m with
  | nil => rfl
  | cons i rest ih =>
    have hjr : j ∉ rest := fun hh => h (List.mem_cons_of_mem i hh)
    have hji : ¬i = j := by
      intro hh
      exact h (hh ▸ List.mem_cons_self i rest)
    unfold markAll
    cases hl : lookupNode m i with
    | none => exact ih m hjr
    | some t =>
      rw [ih _ hjr, lookupNode_setNode]
      simp [hji]

theorem lookupNode_markAll_mem (now : Nat) (ids : List Nat) (m : NodeMap) (j : Nat) (v : Node)
    (hmem : j ∈ ids) (h : lookupNode m j = some v) :
    lookupNode (markAll now m ids) j = some (markDeleted now v) := by
  induction ids generalizing m v with
  | nil => cases hmem
  | cons i rest ih =>
    unfold markAll
    by_cases hji : j = i
    · subst hji
      rw [h]
      by_cases hr : j ∈ rest
      · have hset : lookupNode (setNode m j (markDeleted now v)) j = some (markDeleted now v) := by
          rw [lookupNode_setNode]; simp
        rw [ih _ _ hr hset, markDeleted_idem]
      · rw [lookupNode_markAll_notMem now rest _ j hr, lookupNode_setNode]
        simp
    · have hr : j ∈ rest := by
        rcases List.mem_cons.mp hmem with hh | hh
        · exact absurd hh hji
        · exact hh
      cases hl : lookupNode m i with
      | none => exact ih m v hr h
      | some t =>
        have h2 : lookupNode (setNode m i (markDeleted now t)) j = some v := by
          rw [lookupNode_setNode]
          have hij : ¬i = j := fun hh => hji hh.symm
          simp only [if_neg hij]
          exact h
        exact ih _ v hr h2

theorem lookupNode_markAll_none (now : Nat) (ids : List Nat) (m : NodeMap) (j : Nat)
    (h : lookupNode m j = none) : lookupNode (markAll now m ids) j = none := by
  induction ids generalizing m with
  | nil => exact h
  | cons i rest ih =>
    unfold markAll
    cases hl : lookupNode m i with
    | none => exact ih m h
    | some t =>
      have h2 : lookupNode (setNode m i (markDeleted now t)) j = none := by
        rw [lookupNode_setNode]
        have hij : ¬i = j := by
          intro hh
          rw [hh, h] at hl
          cases hl
        simp [hij, h]
      exact ih _ h2

/-! ## Lemmas about the subtree collection loop -/

theorem collectAux_nil (nodes : NodeMap) (fuel : Nat) (acc : List Nat) :
    collectSubtreeAux nodes fuel [] acc = some acc := by
  cases fuel <;> rfl

theorem collectAux_sound (nodes : NodeMap) (fuel : Nat) (stack acc ids : List Nat)
    (h : collectSubtreeAux nodes fuel stack acc = some ids)
    (hacc : ∀ x ∈ acc, ∃ v, lookupNode nodes x = some v ∧ v.status = .active) :
    ∀ x ∈ ids, ∃ v, lookupNode nodes x = some v ∧ v.status = .active := by
  induction fuel generalizing stack acc with
  | zero =>
    cases stack with
    | nil =>
      rw [collectAux_nil] at h
      cases h
      exact hacc
    | cons c rest => simp [collectSubtreeAux] at h
  | succ fuel ih =>
    cases stack with
    | nil =>
      rw [collectAux_nil] at h
      cases h
      exact hacc
    | cons c rest =>
      simp only [collectSubtreeAux] at h
      by_cases hc : c = 0
      · rw [if_pos hc] at h
        exact ih rest acc h hacc
      · rw [if_neg hc] at h
        cases hl : lookupNode nodes c with
        | none =>
          rw [hl] at h
          exact ih rest acc h hacc
        | some node =>
          rw [hl] at h
          dsimp only at h
          by_cases hs : node.status = .active
          · rw [if_pos hs] at h
            refine ih _ _ h ?_
            intro x hx
            rcases List.mem_append.mp hx with hx1 | hx2
            · exact hacc x hx1
            · have hxc : x = c := by simpa using hx2
              exact hxc ▸ ⟨node, hl, hs⟩
          · rw [if_neg hs] at h
            exact ih rest acc h hacc

theorem collectAux_closed (nodes : NodeMap) (P : Nat → Prop)
    (hP : ∀ c v, lookupNode nodes c = some v → v.status = .active → P c →
      ∀ x ∈ v.childrenIds, P x)
    (fuel : Nat) (stack acc ids : List Nat)
    (h : collectSubtreeAux nodes fuel stack acc = some ids)
    (hstack : ∀ x ∈ stack, P x) (hacc : ∀ x ∈ acc, P x) :
    ∀ x ∈ ids, P x := by
  induction fuel generalizing stack acc with
  | zero =>
    cases stack with
    | nil =>
      rw [collectAux_nil] at h
      cases h
      exact hacc
    | cons c rest => simp [collectSubtreeAux] at h
  | succ fuel ih =>
    cases stack with
    | nil =>
      rw [collectAux_nil] at h
      cases h
      exact hacc
    | cons c rest =>
      have hrest : ∀ x ∈ rest, P x := fun x hx => hstack x (List.mem_cons_of_mem c hx)
      have hcP : P c := hstack c (List.mem_cons_self c rest)
      simp only [collectSubtreeAux] at h
      by_cases hc : c = 0
      · rw [if_pos hc] at h
        exact ih rest acc h hrest hacc
      · rw [if_neg hc] at h
        cases hl : lookupNode nodes c with
        | none =>
          rw [hl] at h
          exact ih rest acc h hrest hacc
        | some node =>
          rw [hl] at h
          dsimp only at h
          by_cases hs : node.status = .active
          · rw [if_pos hs] at h
            refine ih _ _ h ?_ ?_
            · intro x hx
              rcases List.mem_append.mp hx with hx1 | hx2
              · exact hP c node hl hs hcP x (List.mem_reverse.mp hx1)
              · exact hrest x hx2
            · intro x hx
              rcases List.mem_append.mp hx with hx1 | hx2
              · exact hacc x hx1
              · have hxc : x = c := by simpa using hx2
                exact hxc ▸ hcP
          · rw [if_neg hs] at h
            exact ih rest acc h hrest hacc

theorem collectAux_acc_subset (nodes : NodeMap) (fuel : Nat) (stack acc ids : List Nat)
    (h : collectSubtreeAux nodes fuel stack acc = some ids) :
    ∀ x ∈ acc, x ∈ ids := by
  induction fuel generalizing stack acc with
  | zero =>
    cases stack with
    | nil =>
      rw [collectAux_nil] at h
      cases h
      exact fun x hx => hx
    | cons c rest => simp [collectSubtreeAux] at h
  | succ fuel ih =>
    cases stack with
    | nil =>
      rw [collectAux_nil] at h
      cases h
      exact fun x hx => hx
    | cons c rest =>
      simp only [collectSubtreeAux] at h
      by_cases hc : c = 0
      · rw [if_pos hc] at h
        exact ih rest acc h
      · rw [if_neg hc] at h
        cases hl : lookupNode nodes c with
        | none =>
          rw [hl] at h
          exact ih rest acc h
        | some node =>
          rw [hl] at h
          dsimp only at h
          by_cases hs : node.status = .active
          · rw [if_pos hs] at h
            intro x hx
            exact ih _ _ h x (List.mem_append.mpr (Or.inl hx))
          · rw [if_neg hs] at h
            exact ih rest acc h

theorem collectSubtree_start_mem (s : TreeState) (n : Nat) (hn : n ≠ 0) (v : Node)
    (hl : lookupNode s.nodes n = some v) (hs : v.status = .active) (ids : List Nat)
    (h : collectSubtree s n = some ids) : n ∈ ids := by
  unfold collectSubtree collectFuel at h
  simp only [collectSubtreeAux] at h
  rw [if_neg hn, hl] at h
  dsimp only at h
  rw [if_pos hs] at h
  exact collectAux_acc_subset _ _ _ _ _ h n (by simp)

/-! ## Lemmas about focus correction and the capped undo push -/

theorem ensureFocus_cases (s : TreeState) :
    ensureFocus s = s ∨ ensureFocus s = { s with focusedNodeId := s.rootId } := by
  unfold ensureFocus
  cases lookupNode s.nodes s.focusedNodeId with
  | none => exact Or.inr rfl
  | some n =>
    dsimp only
    by_cases h : n.status = .active
    · rw [if_pos h]
      exact Or.inl rfl
    · rw [if_neg h]
      exact Or.inr rfl

theorem ensureFocus_nodes (s : TreeState) : (ensureFocus s).nodes = s.nodes := by
  rcases ensureFocus_cases s with h | h <;> rw [h]

theorem ensureFocus_rootId (s : TreeState) : (ensureFocus s).rootId = s.rootId := by
  rcases ensureFocus_cases s with h | h <;> rw [h]

theorem ensureFocus_undoStack (s : TreeState) : (ensureFocus s).undoStack = s.undoStack := by
  rcases ensureFocus_cases s with h | h <;> rw [h]

theorem ensureFocus_redoStack (s : TreeState) : (ensureFocus s).redoStack = s.redoStack := by
  rcases ensureFocus_cases s with h | h <;> rw [h]

theorem ensureFocus_sessionId (s : TreeState) : (ensureFocus s).sessionId = s.sessionId := by
  rcases ensureFocus_cases s with h | h <;> rw [h]

theorem ensureFocus_nextId (s : TreeState) : (ensureFocus s).nextId = s.nextId := by
  rcases ensureFocus_cases s with h | h <;> rw [h]

theorem ensureFocus_focus (s : TreeState) :
    (ensureFocus s).focusedNodeId =
      if isActiveIn s.nodes s.focusedNodeId = true then s.focusedNodeId else s.rootId := by
  cases hl : lookupNode s.nodes s.focusedNodeId with
  | none => simp [ensureFocus, isActiveIn, hl]
  | some n =>
    by_cases hs : n.status = .active <;>
      simp [ensureFocus, isActiveIn, hl, hs]

theorem ensureFocus_of_focusOk (s : TreeState) (h : focusOk s = true) : ensureFocus s = s := by
  unfold focusOk isActiveIn at h
  unfold ensureFocus
  cases hl : lookupNode s.nodes s.focusedNodeId with
  | none =>
    rw [hl] at h
    cases h
  | some n =>
    rw [hl] at h
    dsimp only at h
    dsimp only
    rw [if_pos (of_decide_eq_true h)]

theorem focusOk_ensureFocus (s : TreeState) (h : isActiveIn s.nodes s.rootId = true) :
    focusOk (ensureFocus s) = true := by
  unfold focusOk
  rw [ensureFocus_nodes, ensureFocus_focus]
  by_cases hf : isActiveIn s.nodes s.focusedNodeId = true
  · rw [if_pos hf]
    exact hf
  · rw [if_neg hf]
    exact h

theorem pushUndo_eq (s : TreeState) :
    pushUndo s = { s with undoStack := pushCapped s.undoStack (snapshotOf s), redoStack := [] } :=
  rfl

theorem pushCapped_getLast (stack : List Snapshot) (snap : Snapshot) :
    (pushCapped stack snap).getLast? = some snap := by
  unfold pushCapped
  by_cases h : MAX_HISTORY < (stack ++ [snap]).length
  · rw [if_pos h]
    cases stack with
    | nil => simp [MAX_HISTORY] at h
    | cons a rest => simp
  · rw [if_neg h]
    simp

theorem pushCapped_length_le (stack : List Snapshot) (snap : Snapshot)
    (h : stack.length ≤ MAX_HISTORY) :
    (pushCapped stack snap).length ≤ MAX_HISTORY := by
  unfold pushCapped
  by_cases hlen : MAX_HISTORY < (stack ++ [snap]).length
  · rw [if_pos hlen]
    simp at hlen ⊢
    omega
  · rw [if_neg hlen]
    simp at hlen ⊢
    omega

theorem pushCapped_tail_of_full (stack : List Snapshot) (snap : Snapshot)
    (h : stack.length = MAX_HISTORY) :
    pushCapped stack snap = stack.tail ++ [snap] := by
  unfold pushCapped
  have hlen : MAX_HISTORY < (stack ++ [snap]).length := by
    simp [h]
  rw [if_pos hlen]
  cases stack with
  | nil => simp [MAX_HISTORY] at h
  | cons a rest => simp

theorem pushCapped_lastN (l : List Snapshot) (x : Snapshot) :
    pushCapped (lastN MAX_HISTORY l) x = lastN MAX_HISTORY (l ++ [x]) := by
  unfold pushCapped lastN MAX_HISTORY
  by_cases h : l.length ≤ 200
  · have h1 : l.length - 200 = 0 := by omega
    rw [h1, List.drop_zero]
    by_cases h2 : 200 < (l ++ [x]).length
    · rw [if_pos h2]
      simp only [List.length_append, List.length_singleton] at h2 ⊢
      have h3 : l.length + 1 - 200 = 1 := by omega
      rw [h3]
    · rw [if_neg h2]
      simp only [List.length_append, List.length_singleton] at h2 ⊢
      have h3 : l.length + 1 - 200 = 0 := by omega
      rw [h3, List.drop_zero]
  · have hd1 : 1 ≤ (l.drop (l.length - 200)).length := by
      rw [List.length_drop]
      omega
    have h2 : 200 < (l.drop (l.length - 200) ++ [x]).length := by
      rw [List.length_append, List.length_drop]
      simp only [List.length_singleton]
      omega
    rw [if_pos h2]
    have h3 : (l ++ [x]).length - 200 = (l.length - 200) + 1 := by
      simp only [List.length_append, List.length_singleton]
      omega
    rw [h3]
    rw [List.drop_append_of_le_length hd1]
    rw [List.drop_append_of_le_length (show l.length - 200 + 1 ≤ l.length by omega)]
    rw [List.drop_drop]

/-! ## Normal forms of the successful operations -/

theorem addChild_ok (s : TreeState) (p : Nat) (t : String) (now : Nat) (parent : Node)
    (h : assertNode s p = some parent) :
    addChild s p t now = .ok s.nextId
      { s with
        nodes := setNode
          (setNode s.nodes p
            { parent with childrenIds := parent.childrenIds ++ [s.nextId], updatedAt := now })
          s.nextId (createNode s.nextId (some parent.id) t now)
        focusedNodeId := s.nextId
        nextId := s.nextId + 1
        undoStack := pushCapped s.undoStack (snapshotOf s)
        redoStack := [] } := by
  unfold addChild
  rw [h]
  rfl

theorem addChild_err (s : TreeState) (p : Nat) (t : String) (now : Nat)
    (h : assertNode s p = none) :
    addChild s p t now = .err (.nodeNotFound p) s := by
  unfold addChild
  rw [h]

theorem addSibling_ok (s : TreeState) (n : Nat) (t : String) (now : Nat) (node : Node)
    (h : assertNode s n = some node) :
    addSibling s n t now = addChild s (node.parentId.getD s.rootId) t now := by
  unfold addSibling
  rw [h]

theorem addSibling_err (s : TreeState) (n : Nat) (t : String) (now : Nat)
    (h : assertNode s n = none) :
    addSibling s n t now = .err (.nodeNotFound n) s := by
  unfold addSibling
  rw [h]

theorem renameNode_ok (s : TreeState) (n : Nat) (t : String) (now : Nat) (node : Node)
    (h : assertNode s n = some node) :
    renameNode s n t now = .ok ()
      { s with
        nodes := setNode s.nodes n { node with title := sanitizeTitle t, updatedAt := now }
        undoStack := pushCapped s.undoStack (snapshotOf s)
        redoStack := [] } := by
  unfold renameNode
  rw [h]
  rfl

theorem renameNode_err (s : TreeState) (n : Nat) (t : String) (now : Nat)
    (h : assertNode s n = none) :
    renameNode s n t now = .err (.nodeNotFound n) s := by
  unfold renameNode
  rw [h]

theorem focusNode_ok (s : TreeState) (n : Nat) (node : Node)
    (h : assertNode s n = some node) :
    focusNode s n = .ok () { s with focusedNodeId := node.id } := by
  unfold focusNode
  rw [h]

theorem focusNode_err (s : TreeState) (n : Nat)
    (h : assertNode s n = none) :
    focusNode s n = .err (.nodeNotFound n) s := by
  unfold focusNode
  rw [h]

theorem assertNode_some (s : TreeState) (n : Nat) (node : Node)
    (h : assertNode s n = some node) :
    lookupNode s.nodes n = some node ∧ node.status = .active := by
  unfold assertNode at h
  cases hl : lookupNode s.nodes n with
  | none =>
    rw [hl] at h
    cases h
  | some v =>
    rw [hl] at h
    dsimp only at h
    by_cases hs : v.status = .active
    · rw [if_pos hs] at h
      injection h with h2
      subst h2
      exact ⟨rfl, hs⟩
    · rw [if_neg hs] at h
      cases h

theorem assertNode_none (s : TreeState) (n : Nat)
    (h : assertNode s n = none) :
    ∀ v, lookupNode s.nodes n = some v → v.status ≠ .active := by
  intro v hv hs
  unfold assertNode at h
  rw [hv] at h
  dsimp only at h
  rw [if_pos hs] at h
  cases h

theorem assertNode_of_active (s : TreeState) (n : Nat) (v : Node)
    (hl : lookupNode s.nodes n = some v) (hs : v.status = .active) :
    assertNode s n = some v := by
  unfold assertNode
  rw [hl]
  dsimp only
  rw [if_pos hs]

theorem softDelete_err (s : TreeState) (n : Nat) (now : Nat) (e : Err) (st : TreeState)
    (h : softDeleteInternal s n now = some (.err e st)) : st = s := by
  unfold softDeleteInternal at h
  cases ha : assertNode s n with
  | none =>
    rw [ha] at h
    dsimp only at h
    injection h with h1
    injection h1 with h2 h3
    exact h3.symm
  | some node =>
    rw [ha] at h
    dsimp only at h
    by_cases hroot : node.id = s.rootId
    · rw [if_pos hroot] at h
      injection h with h1
      injection h1 with h2 h3
      exact h3.symm
    · rw [if_neg hroot] at h
      cases hc : collectSubtree (pushUndo s) n with
      | none =>
        rw [hc] at h
        simp at h
      | some ids =>
        rw [hc] at h
        dsimp only at h
        cases hp : lookupNode (markAll now (pushUndo s).nodes ids) (node.parentId.getD (pushUndo s).rootId) with
        | none =>
          rw [hp] at h
          simp at h
        | some parent =>
          rw [hp] at h
          dsimp only at h
          by_cases hact : parent.status = .active
          · rw [if_pos hact] at h
            simp at h
          · rw [if_neg hact] at h
            simp at h

theorem softDelete_ok_shape (s : TreeState) (n : Nat) (now : Nat) (nf : Nat) (st : TreeState)
    (h : softDeleteInternal s n now = some (.ok nf st)) :
    ∃ node ids,
      assertNode s n = some node ∧ node.id ≠ s.rootId ∧
      collectSubtree s n = some ids ∧
      nf = st.focusedNodeId ∧
      ((∃ parent,
          lookupNode (markAll now s.nodes ids) (node.parentId.getD s.rootId) = some parent ∧
          parent.status = .active ∧
          st = ensureFocus
            { s with
              nodes := setNode (markAll now s.nodes ids) (node.parentId.getD s.rootId)
                { parent with
                  childrenIds := parent.childrenIds.filter (fun childId => childId ≠ node.id)
                  updatedAt := now }
              focusedNodeId := parent.id
              undoStack := pushCapped s.undoStack (snapshotOf s)
              redoStack := [] }) ∨
        ((∀ parent,
            lookupNode (markAll now s.nodes ids) (node.parentId.getD s.rootId) = some parent →
            parent.status ≠ .active) ∧
          st = ensureFocus
            { s with
              nodes := markAll now s.nodes ids
              focusedNodeId := s.rootId
              undoStack := pushCapped s.undoStack (snapshotOf s)
              redoStack := [] })) := by
  unfold softDeleteInternal at h
  cases ha : assertNode s n with
  | none =>
    rw [ha] at h
    simp at h
  | some node =>
    rw [ha] at h
    dsimp only at h
    by_cases hroot : node.id = s.rootId
    · rw [if_pos hroot] at h
      simp at h
    · rw [if_neg hroot] at h
      cases hc : collectSubtree (pushUndo s) n with
      | none =>
        rw [hc] at h
        simp at h
      | some ids =>
        rw [hc] at h
        dsimp only at h
        cases hp : lookupNode (markAll now (pushUndo s).nodes ids) (node.parentId.getD (pushUndo s).rootId) with
        | none =>
          rw [hp] at h
          dsimp only at h
          injection h with h1
          injection h1 with hval hstate
          refine ⟨node, ids, rfl, hroot, hc, ?_, Or.inr ⟨?_, ?_⟩⟩
          · rw [← hstate, ← hval]
          · intro parent hparent
            rw [show lookupNode (markAll now s.nodes ids) (node.parentId.getD s.rootId) =
                lookupNode (markAll now (pushUndo s).nodes ids) (node.parentId.getD (pushUndo s).rootId) from rfl] at hparent
            rw [hp] at hparent
            cases hparent
          · exact hstate.symm
        | some parent =>
          rw [hp] at h
          dsimp only at h
          by_cases hact : parent.status = .active
          · rw [if_pos hact] at h
            injection h with h1
            injection h1 with hval hstate
            refine ⟨node, ids, rfl, hroot, hc, ?_, Or.inl ⟨parent, hp, hact, hstate.symm⟩⟩
            rw [← hstate, ← hval]
          · rw [if_neg hact] at h
            injection h with h1
            injection h1 with hval hstate
            refine ⟨node, ids, rfl, hroot, hc, ?_, Or.inr ⟨?_, hstate.symm⟩⟩
            · rw [← hstate, ← hval]
            · intro parent2 hparent
              rw [show lookupNode (markAll now s.nodes ids) (node.parentId.getD s.rootId) =
                  lookupNode (markAll now (pushUndo s).nodes ids) (node.parentId.getD (pushUndo s).rootId) from rfl] at hparent
              rw [hp] at hparent
              injection hparent with hpar
              rw [hpar] at hact
              exact hact

theorem undo_eq_of_getLast (s : TreeState) (snap : Snapshot)
    (h : s.undoStack.getLast? = some snap) :
    undo s = applySnapshot
      { s with undoStack := s.undoStack.dropLast, redoStack := s.redoStack ++ [snapshotOf s] }
      snap := by
  unfold undo
  rw [h]

theorem undo_empty (s : TreeState) (h : s.undoStack = []) : undo s = s := by
  unfold undo
  rw [h]
  rfl

theorem redo_eq_of_getLast (s : TreeState) (snap : Snapshot)
    (h : s.redoStack.getLast? = some snap) :
    redo s = applySnapshot
      { s with redoStack := s.redoStack.dropLast, undoStack := s.undoStack ++ [snapshotOf s] }
      snap := by
  unfold redo
  rw [h]

theorem redo_empty (s : TreeState) (h : s.redoStack = []) : redo s = s := by
  unfold redo
  rw [h]
  rfl

/-! ## Reading the boolean state predicates -/

theorem keysMatch_lookup (s : TreeState) (h : keysMatch s = true) (k : Nat) (v : Node)
    (hv : lookupNode s.nodes k = some v) : v.id = k := by
  have hmem := lookupNode_mem _ _ _ hv
  unfold keysMatch at h
  rw [List.all_eq_true] at h
  exact of_decide_eq_true (h _ hmem)

theorem rootNotChild_lookup (s : TreeState) (h : rootNotChild s = true) (k : Nat) (v : Node)
    (hv : lookupNode s.nodes k = some v) : s.rootId ∉ v.childrenIds := by
  intro hmem
  have hkv := lookupNode_mem _ _ _ hv
  unfold rootNotChild at h
  rw [List.all_eq_true] at h
  have h2 := h _ hkv
  rw [List.all_eq_true] at h2
  exact of_decide_eq_true (h2 _ hmem) rfl

theorem idsBounded_lookup (s : TreeState) (h : idsBounded s = true) (k : Nat) (v : Node)
    (hv : lookupNode s.nodes k = some v) :
    k < s.nextId ∧ ∀ c ∈ v.childrenIds, c < s.nextId := by
  have hkv := lookupNode_mem _ _ _ hv
  unfold idsBounded at h
  rw [List.all_eq_true] at h
  have h2 := h _ hkv
  rw [Bool.and_eq_true] at h2
  constructor
  · exact of_decide_eq_true h2.1
  · intro c hc
    have h3 := h2.2
    rw [List.all_eq_true] at h3
    exact of_decide_eq_true (h3 _ hc)

theorem stacksGood_undo (s : TreeState) (h : stacksGood s = true) :
    ∀ snap ∈ s.undoStack, goodSnap snap = true := by
  unfold stacksGood at h
  rw [Bool.and_eq_true, List.all_eq_true] at h
  exact fun snap hs => h.1 snap hs

theorem stacksGood_redo (s : TreeState) (h : stacksGood s = true) :
    ∀ snap ∈ s.redoStack, goodSnap snap = true := by
  unfold stacksGood at h
  rw [Bool.and_eq_true] at h
  have h2 := h.2
  rw [List.all_eq_true] at h2
  exact fun snap hs => h2 snap hs

/-! ## Claim C10 -/

/-- C10: a successful `focusNode(nodeId)` changes only `focusedNodeId`; the
node map, the undo stack, and the redo stack (even a non-empty one) are all
left unchanged, since `focusNode` never pushes an undo snapshot and never
clears the redo stack; the new focus is the asserted node's id, which is
the requested id whenever keys match their nodes. -/
theorem C10_focusNode_frame (s : TreeState) (nodeId : Nat) (u : Unit) (st : TreeState)
    (h : focusNode s nodeId = .ok u st) :
    st.nodes = s.nodes ∧ st.undoStack = s.undoStack ∧ st.redoStack = s.redoStack ∧
    st.sessionId = s.sessionId ∧ st.rootId = s.rootId ∧ st.nextId = s.nextId ∧
    (∃ node, assertNode s nodeId = some node ∧ node.status = .active ∧
      st.focusedNodeId = node.id) ∧
    (keysMatch s = true → st.focusedNodeId = nodeId) := by
  cases ha : assertNode s nodeId with
  | none =>
    rw [focusNode_err s nodeId ha] at h
    cases h
  | some node =>
    rw [focusNode_ok s nodeId node ha] at h
    injection h with h1 h2
    subst h2
    have hactive := (assertNode_some s nodeId node ha).2
    have hlook := (assertNode_some s nodeId node ha).1
    refine ⟨rfl, rfl, rfl, rfl, rfl, rfl, ⟨node, rfl, hactive, rfl⟩, ?_⟩
    intro hkm
    exact keysMatch_lookup s hkm nodeId node hlook

/-- Witness for C10 at a concrete state: focusing the root from the child
leaves the map and both stacks untouched. -/
theorem C10_witness :
    (opState (focusNode sampleTwo 1)).nodes = sampleTwo.nodes ∧
    (opState (focusNode sampleTwo 1)).undoStack = sampleTwo.undoStack ∧
    (opState (focusNode sampleTwo 1)).redoStack = sampleTwo.redoStack ∧
    (opState (focusNode sampleTwo 1)).sessionId = sampleTwo.sessionId ∧
    (opState (focusNode sampleTwo 1)).rootId = sampleTwo.rootId ∧
    (opState (focusNode sampleTwo 1)).nextId = sampleTwo.nextId ∧
    (∃ node, assertNode sampleTwo 1 = some node ∧ node.status = .active ∧
      (opState (focusNode sampleTwo 1)).focusedNodeId = node.id) ∧
    (keysMatch sampleTwo = true → (opState (focusNode sampleTwo 1)).focusedNodeId = 1) :=
  C10_focusNode_frame sampleTwo 1 () (opState (focusNode sampleTwo 1)) (by decide)

theorem assertNode_isActive (s : TreeState) (n : Nat) :
    (assertNode s n).isSome = isActiveIn s.nodes n := by
  unfold assertNode isActiveIn
  cases lookupNode s.nodes n with
  | none => rfl
  | some v =>
    dsimp only
    by_cases hs : v.status = .active
    · rw [if_pos hs]
      simp [hs]
    · rw [if_neg hs]
      simp [hs]

/-! ## Claim C3 -/

/-- C3: whenever a mutating command fails with `NodeNotFound` or
`RootNodeProtected`, the entire in-memory state (node map, focus, undo and
redo stacks) is exactly the state the command started from; and completing
or deleting the root always fails: with `RootNodeProtected` when the root
is active, and with `NodeNotFound` when the root entry itself is missing or
inactive. -/
theorem C3_error_frame :
    (∀ s p t now e st, addChild s p t now = .err e st → st = s) ∧
    (∀ s n t now e st, addSibling s n t now = .err e st → st = s) ∧
    (∀ s n t now e st, renameNode s n t now = .err e st → st = s) ∧
    (∀ s n e st, focusNode s n = .err e st → st = s) ∧
    (∀ s n now e st, completeNode s n now = some (.err e st) → st = s) ∧
    (∀ s n now e st, deleteNode s n now = some (.err e st) → st = s) ∧
    (∀ s now, (∀ v, lookupNode s.nodes s.rootId = some v → v.id = s.rootId) →
      ∃ e, completeNode s s.rootId now = some (.err e s) ∧
        deleteNode s s.rootId now = some (.err e s) ∧
        (rootActive s = true → e = .rootProtected) ∧
        (rootActive s = false → e = .nodeNotFound s.rootId)) := by
  have haddChild : ∀ s p (t : String) now e st, addChild s p t now = .err e st → st = s := by
    intro s p t now e st h
    cases ha : assertNode s p with
    | none =>
      rw [addChild_err s p t now ha] at h
      injection h with h1 h2
      exact h2.symm
    | some parent =>
      rw [addChild_ok s p t now parent ha] at h
      cases h
  refine ⟨haddChild, ?_, ?_, ?_, ?_, ?_, ?_⟩
  · intro s n t now e st h
    cases ha : assertNode s n with
    | none =>
      rw [addSibling_err s n t now ha] at h
      injection h with h1 h2
      exact h2.symm
    | some node =>
      rw [addSibling_ok s n t now node ha] at h
      exact haddChild s _ t now e st h
  · intro s n t now e st h
    cases ha : assertNode s n with
    | none =>
      rw [renameNode_err s n t now ha] at h
      injection h with h1 h2
      exact h2.symm
    | some node =>
      rw [renameNode_ok s n t now node ha] at h
      cases h
  · intro s n e st h
    cases ha : assertNode s n with
    | none =>
      rw [focusNode_err s n ha] at h
      injection h with h1 h2
      exact h2.symm
    | some node =>
      rw [focusNode_ok s n node ha] at h
      cases h
  · intro s n now e st h
    exact softDelete_err s n now e st h
  · intro s n now e st h
    exact softDelete_err s n now e st h
  · intro s now hk
    cases ha : assertNode s s.rootId with
    | none =>
      have hra : rootActive s = false := by
        unfold rootActive
        rw [← assertNode_isActive, ha]
        rfl
      have hdel : softDeleteInternal s s.rootId now = some (.err (.nodeNotFound s.rootId) s) := by
        unfold softDeleteInternal
        rw [ha]
      refine ⟨.nodeNotFound s.rootId, hdel, hdel, ?_, fun _ => rfl⟩
      intro hcontra
      rw [hra] at hcontra
      cases hcontra
    | some node =>
      have hlook := (assertNode_some s s.rootId node ha).1
      have hid : node.id = s.rootId := hk node hlook
      have hra : rootActive s = true := by
        unfold rootActive
        rw [← assertNode_isActive, ha]
        rfl
      have hdel : softDeleteInternal s s.rootId now = some (.err .rootProtected s) := by
        unfold softDeleteInternal
        rw [ha]
        dsimp only
        rw [if_pos hid]
      refine ⟨.rootProtected, hdel, hdel, fun _ => rfl, ?_⟩
      intro hcontra
      rw [hra] at hcontra
      cases hcontra

/-- Witness for C3: a failing `addChild` on a missing id hands back the
very same state, and deleting the concrete sample root fails with
`RootNodeProtected`. -/
theorem C3_witness :
    (opState (addChild sampleTwo 99 "x" 5) = sampleTwo) ∧
    (∃ e, completeNode sampleTwo sampleTwo.rootId 5 = some (.err e sampleTwo) ∧
      deleteNode sampleTwo sampleTwo.rootId 5 = some (.err e sampleTwo) ∧
      (rootActive sampleTwo = true → e = .rootProtected) ∧
      (rootActive sampleTwo = false → e = .nodeNotFound sampleTwo.rootId)) :=
  ⟨C3_error_frame.1 sampleTwo 99 "x" 5 (.nodeNotFound 99) (opState (addChild sampleTwo 99 "x" 5))
      (by decide),
    C3_error_frame.2.2.2.2.2.2 sampleTwo 5 (by decide)⟩

/-! ## Claims C8 and C7 -/

theorem scheduleStateWrite_armed (st : DebounceStore) (state : TreeState)
    (h : st.timerArmed = true) :
    scheduleStateWrite st state = { st with pendingState := some state } := by
  unfold scheduleStateWrite
  rw [if_pos h]

theorem foldSchedule_armed (calls : List TreeState) (st : DebounceStore)
    (h : st.timerArmed = true) :
    (calls.foldl scheduleStateWrite st).timerArmed = true ∧
    (calls.foldl scheduleStateWrite st).timersStarted = st.timersStarted ∧
    (calls.foldl scheduleStateWrite st).writes = st.writes ∧
    (calls.foldl scheduleStateWrite st).pendingState =
      (match calls.getLast? with
        | some c => some c
        | none => st.pendingState) := by
  induction calls generalizing st with
  | nil => exact ⟨h, rfl, rfl, rfl⟩
  | cons c cs ih =>
    simp only [List.foldl_cons]
    rw [scheduleStateWrite_armed st c h]
    obtain ⟨a, b, w, p⟩ := ih { st with pendingState := some c } h
    refine ⟨a, b, w, ?_⟩
    rw [p]
    cases cs with
    | nil => rfl
    | cons d ds =>
      rw [List.getLast?_cons_cons]
      cases hg : (d :: ds).getLast? with
      | none => simp at hg
      | some x => rfl

theorem fireTimer_armed (st : DebounceStore) (c : TreeState) (ha : st.timerArmed = true)
    (hp : st.pendingState = some c) :
    fireTimer st =
      { st with timerArmed := false, pendingState := none, writes := st.writes ++ [c] } := by
  unfold fireTimer
  rw [if_pos ha]
  dsimp only
  rw [hp]

/-- C8: all `scheduleStateWrite` calls landing inside one debounce window
(started from an idle store, before the armed timer fires) arm exactly one
timer, keep replacing the single pending payload, and produce exactly one
disk write, of the state passed by the last call; a call made while a timer
is pending only replaces the payload and never arms a second timer. -/
theorem C8_debounce (st0 : DebounceStore) (c0 : TreeState) (cs : List TreeState)
    (hidle : st0.timerArmed = false) :
    ∃ last, (c0 :: cs).getLast? = some last ∧
      ((c0 :: cs).foldl scheduleStateWrite st0).timersStarted = st0.timersStarted + 1 ∧
      ((c0 :: cs).foldl scheduleStateWrite st0).timerArmed = true ∧
      ((c0 :: cs).foldl scheduleStateWrite st0).pendingState = some last ∧
      ((c0 :: cs).foldl scheduleStateWrite st0).writes = st0.writes ∧
      (fireTimer ((c0 :: cs).foldl scheduleStateWrite st0)).writes = st0.writes ++ [last] ∧
      (fireTimer ((c0 :: cs).foldl scheduleStateWrite st0)).pendingState = none ∧
      (fireTimer ((c0 :: cs).foldl scheduleStateWrite st0)).timerArmed = false ∧
      (∀ st state, st.timerArmed = true →
        scheduleStateWrite st state = { st with pendingState := some state }) := by
  have hstep : scheduleStateWrite st0 c0 =
      { st0 with
        pendingState := some c0
        timerArmed := true
        timersStarted := st0.timersStarted + 1 } := by
    unfold scheduleStateWrite
    rw [if_neg (by rw [hidle]; exact Bool.false_ne_true)]
  have hfold := foldSchedule_armed cs
    { st0 with
      pendingState := some c0
      timerArmed := true
      timersStarted := st0.timersStarted + 1 } rfl
  obtain ⟨a, b, w, p⟩ := hfold
  simp only [List.foldl_cons, hstep]
  cases hlast : cs.getLast? with
  | none =>
    have hcs : cs = [] := List.getLast?_eq_none_iff.mp hlast
    subst hcs
    refine ⟨c0, rfl, rfl, rfl, rfl, rfl, ?_, ?_, ?_, scheduleStateWrite_armed⟩
    · rw [fireTimer_armed _ c0 rfl rfl]
      rfl
    · rw [fireTimer_armed _ c0 rfl rfl]
    · rw [fireTimer_armed _ c0 rfl rfl]
  | some last =>
    rw [hlast] at p
    have hl2 : (c0 :: cs).getLast? = some last := by
      cases cs with
      | nil => cases hlast
      | cons d ds => rw [List.getLast?_cons_cons]; exact hlast
    refine ⟨last, hl2, b, a, p, w, ?_, ?_, ?_, scheduleStateWrite_armed⟩
    · rw [fireTimer_armed _ last a p]
      show (List.foldl scheduleStateWrite
        { st0 with
          pendingState := some c0
          timerArmed := true
          timersStarted := st0.timersStarted + 1 } cs).writes ++ [last] = st0.writes ++ [last]
      rw [w]
    · rw [fireTimer_armed _ last a p]
    · rw [fireTimer_armed _ last a p]

/-- Witness for C8 at concrete input: three rapid calls from an idle store
coalesce into a single write of the third state. -/
theorem C8_witness :
    ∃ last,
      ([sampleState, sampleState, sampleTwo].getLast? = some last) ∧
      (([sampleState, sampleState, sampleTwo].foldl scheduleStateWrite
          ⟨none, false, 0, []⟩).timersStarted = 0 + 1) ∧
      (([sampleState, sampleState, sampleTwo].foldl scheduleStateWrite
          ⟨none, false, 0, []⟩).timerArmed = true) ∧
      (([sampleState, sampleState, sampleTwo].foldl scheduleStateWrite
          ⟨none, false, 0, []⟩).pendingState = some last) ∧
      (([sampleState, sampleState, sampleTwo].foldl scheduleStateWrite
          ⟨none, false, 0, []⟩).writes = []) ∧
      ((fireTimer ([sampleState, sampleState, sampleTwo].foldl scheduleStateWrite
          ⟨none, false, 0, []⟩)).writes = [] ++ [last]) ∧
      ((fireTimer ([sampleState, sampleState, sampleTwo].foldl scheduleStateWrite
          ⟨none, false, 0, []⟩)).pendingState = none) ∧
      ((fireTimer ([sampleState, sampleState, sampleTwo].foldl scheduleStateWrite
          ⟨none, false, 0, []⟩)).timerArmed = false) ∧
      (∀ st state, st.timerArmed = true →
        scheduleStateWrite st state = { st with pendingState := some state }) :=
  C8_debounce ⟨none, false, 0, []⟩ sampleState [sampleState, sampleTwo] (by decide)

/-- C7 (code evaluated at the failing input): `restoreToSnapshot` builds its
new session id from the clock alone, so when an event log for the same
timestamp already exists (here: restoring during the second in which the
current session was created) the freshly chosen event-log path is exactly
the existing file — the source has no `-N` suffix loop, unlike
`initSession`, whose allocator avoids the collision on the same input.  The
rebuilt state itself does keep the snapshot's tree and root while resetting
focus to the root and clearing both history stacks. -/
theorem C7_restore_reuses_log :
    (restoreToSnapshot ["2024-01-01_00-00-00.events.log"]
        ⟨2024, 1, 1, 0, 0, 0⟩ sampleTwo).eventsLogName = "2024-01-01_00-00-00.events.log" ∧
    "2024-01-01_00-00-00.events.log" ∈ ["2024-01-01_00-00-00.events.log"] ∧
    initSessionId ["2024-01-01_00-00-00.events.log"] ⟨2024, 1, 1, 0, 0, 0⟩ =
      "2024-01-01_00-00-00-1" ∧
    (∀ files now snap,
      (restoreToSnapshot files now snap).restoredState =
        { sessionId := createSessionId now
          rootId := snap.rootId
          focusedNodeId := snap.rootId
          nodes := snap.nodes
          undoStack := []
          redoStack := []
          nextId := snap.nextId }) :=
  ⟨by decide, by decide, by decide, fun files now snap => rfl⟩

/-! ## Claim C1 -/

theorem undo_redo_roundtrip (s s1 : TreeState)
    (hf0 : focusOk s = true) (hf1 : focusOk s1 = true)
    (hU : s1.undoStack = pushCapped s.undoStack (snapshotOf s)) :
    UndoRedoRestores s s1 := by
  have hlast : s1.undoStack.getLast? = some (snapshotOf s) := by
    rw [hU]
    exact pushCapped_getLast _ _
  have hundo := undo_eq_of_getLast s1 (snapshotOf s) hlast
  have hinner : focusOk { s1 with
      undoStack := s1.undoStack.dropLast
      redoStack := s1.redoStack ++ [snapshotOf s1]
      rootId := (snapshotOf s).rootId
      focusedNodeId := (snapshotOf s).focusedNodeId
      nodes := (snapshotOf s).nodes } = true := by
    unfold focusOk
    exact hf0
  have hundo2 : undo s1 = { s1 with
      undoStack := s1.undoStack.dropLast
      redoStack := s1.redoStack ++ [snapshotOf s1]
      rootId := s.rootId
      focusedNodeId := s.focusedNodeId
      nodes := s.nodes } := by
    rw [hundo]
    unfold applySnapshot
    exact ensureFocus_of_focusOk _ hinner
  have hlast2 : (undo s1).redoStack.getLast? = some (snapshotOf s1) := by
    rw [hundo2]
    show (s1.redoStack ++ [snapshotOf s1]).getLast? = some (snapshotOf s1)
    simp
  have hredo := redo_eq_of_getLast (undo s1) (snapshotOf s1) hlast2
  have hinner2 : focusOk { undo s1 with
      redoStack := (undo s1).redoStack.dropLast
      undoStack := (undo s1).undoStack ++ [snapshotOf (undo s1)]
      rootId := (snapshotOf s1).rootId
      focusedNodeId := (snapshotOf s1).focusedNodeId
      nodes := (snapshotOf s1).nodes } = true := by
    unfold focusOk
    exact hf1
  have hredo2 : redo (undo s1) = { undo s1 with
      redoStack := (undo s1).redoStack.dropLast
      undoStack := (undo s1).undoStack ++ [snapshotOf (undo s1)]
      rootId := s1.rootId
      focusedNodeId := s1.focusedNodeId
      nodes := s1.nodes } := by
    rw [hredo]
    unfold applySnapshot
    exact ensureFocus_of_focusOk _ hinner2
  refine ⟨?_, ?_, ?_, ?_, ?_, ?_⟩
  · rw [hundo2]
  · rw [hundo2]
  · rw [hundo2]
  · rw [hredo2]
  · rw [hredo2]
  · rw [hredo2]

theorem softDelete_stacks (s : TreeState) (n : Nat) (now : Nat) (nf : Nat) (st : TreeState)
    (h : softDeleteInternal s n now = some (.ok nf st)) :
    st.undoStack = pushCapped s.undoStack (snapshotOf s) ∧ st.redoStack = [] ∧
    st.rootId = s.rootId ∧ st.sessionId = s.sessionId ∧ st.nextId = s.nextId := by
  obtain ⟨node, ids, ha, hroot, hc, hnf, hcase⟩ := softDelete_ok_shape s n now nf st h
  rcases hcase with ⟨parent, hp, hact, hst⟩ | ⟨hnp, hst⟩ <;> subst hst <;>
    exact ⟨ensureFocus_undoStack _, ensureFocus_redoStack _, ensureFocus_rootId _,
      ensureFocus_sessionId _, ensureFocus_nextId _⟩

theorem collect_ne_root (s : TreeState) (n : Nat) (ids : List Nat)
    (hrc : rootNotChild s = true) (hn : n ≠ s.rootId)
    (hc : collectSubtree s n = some ids) :
    ∀ x ∈ ids, x ≠ s.rootId := by
  have hc2 : collectSubtreeAux s.nodes (collectFuel s.nodes) [n] [] = some ids := hc
  refine collectAux_closed s.nodes (fun x => x ≠ s.rootId) ?_ _ _ _ _ hc2 ?_ ?_
  · intro c v hlv hsv hPc x hx hxr
    exact rootNotChild_lookup s hrc c v hlv (hxr ▸ hx)
  · intro x hx
    have hxn : x = n := by simpa using hx
    exact hxn ▸ hn
  · intro x hx
    cases hx

theorem softDelete_focusOk (s : TreeState) (n : Nat) (now : Nat) (nf : Nat) (st : TreeState)
    (hra : rootActive s = true) (hrc : rootNotChild s = true) (hkm : keysMatch s = true)
    (h : softDeleteInternal s n now = some (.ok nf st)) :
    focusOk st = true := by
  obtain ⟨node, ids, ha, hroot, hc, hnf, hcase⟩ := softDelete_ok_shape s n now nf st h
  have hlook := (assertNode_some s n node ha).1
  have hnid : node.id = n := keysMatch_lookup s hkm n node hlook
  have hn_ne_root : n ≠ s.rootId := by
    rw [← hnid]
    exact hroot
  have hne_root := collect_ne_root s n ids hrc hn_ne_root hc
  have hrootm1 : isActiveIn (markAll now s.nodes ids) s.rootId = true := by
    unfold isActiveIn
    rw [lookupNode_markAll_notMem now ids s.nodes s.rootId
      (fun hmem => hne_root _ hmem rfl)]
    exact hra
  rcases hcase with ⟨parent, hp, hact, hst⟩ | ⟨hnp, hst⟩
  · subst hst
    refine focusOk_ensureFocus _ ?_
    show isActiveIn
      (setNode (markAll now s.nodes ids) (node.parentId.getD s.rootId)
        { parent with
          childrenIds := parent.childrenIds.filter (fun childId => childId ≠ node.id)
          updatedAt := now }) s.rootId = true
    unfold isActiveIn
    rw [lookupNode_setNode]
    by_cases hpk : node.parentId.getD s.rootId = s.rootId
    · rw [if_pos hpk]
      show decide (parent.status = Status.active) = true
      exact decide_eq_true hact
    · rw [if_neg hpk]
      exact hrootm1
  · subst hst
    exact focusOk_ensureFocus _ hrootm1

/-- C1: from any healthy state (valid focus, active root that is nobody's
child, id-keyed map), calling `undo()` immediately after any single
successful mutating command (addChild, addSibling, renameNode,
completeNode, deleteNode) restores exactly the prior node map, tree root
and focusedNodeId; and calling `redo()` immediately after that `undo()`
restores the node map, root and focusedNodeId exactly as they were just
before the undo. -/
theorem C1_undo_redo (s : TreeState)
    (hf : focusOk s = true) (hra : rootActive s = true)
    (hrc : rootNotChild s = true) (hkm : keysMatch s = true) :
    (∀ p t now v s1, addChild s p t now = .ok v s1 → UndoRedoRestores s s1) ∧
    (∀ n t now v s1, addSibling s n t now = .ok v s1 → UndoRedoRestores s s1) ∧
    (∀ n t now s1, renameNode s n t now = .ok () s1 → UndoRedoRestores s s1) ∧
    (∀ n now v s1, completeNode s n now = some (.ok v s1) → UndoRedoRestores s s1) ∧
    (∀ n now v s1, deleteNode s n now = some (.ok v s1) → UndoRedoRestores s s1) := by
  have haddChild : ∀ p t now v s1, addChild s p t now = .ok v s1 → UndoRedoRestores s s1 := by
    intro p t now v s1 h
    cases ha : assertNode s p with
    | none =>
      rw [addChild_err s p t now ha] at h
      cases h
    | some parent =>
      rw [addChild_ok s p t now parent ha] at h
      injection h with hv hst
      subst hst
      refine undo_redo_roundtrip s _ hf ?_ rfl
      unfold focusOk isActiveIn
      dsimp only
      rw [lookupNode_setNode]
      simp [createNode]
  have hsoft : ∀ n now v s1, softDeleteInternal s n now = some (.ok v s1) →
      UndoRedoRestores s s1 := by
    intro n now v s1 h
    obtain ⟨hU, hR, _, _, _⟩ := softDelete_stacks s n now v s1 h
    exact undo_redo_roundtrip s s1 hf (softDelete_focusOk s n now v s1 hra hrc hkm h) hU
  refine ⟨haddChild, ?_, ?_, hsoft, hsoft⟩
  · intro n t now v s1 h
    cases ha : assertNode s n with
    | none =>
      rw [addSibling_err s n t now ha] at h
      cases h
    | some node =>
      rw [addSibling_ok s n t now node ha] at h
      exact haddChild _ t now v s1 h
  · intro n t now s1 h
    cases ha : assertNode s n with
    | none =>
      rw [renameNode_err s n t now ha] at h
      cases h
    | some node =>
      have hact := (assertNode_some s n node ha).2
      rw [renameNode_ok s n t now node ha] at h
      injection h with hv hst
      subst hst
      refine undo_redo_roundtrip s _ hf ?_ rfl
      unfold focusOk isActiveIn
      dsimp only
      rw [lookupNode_setNode]
      by_cases hfn : n = s.focusedNodeId
      · rw [if_pos hfn]
        dsimp only
        rw [hact]
        rfl
      · rw [if_neg hfn]
        unfold focusOk isActiveIn at hf
        exact hf

/-- Witness for C1: the concrete two-node sample satisfies every
hypothesis, and adding a child under the existing child round-trips through
undo and redo. -/
theorem C1_witness :
    focusOk sampleTwo = true ∧ rootActive sampleTwo = true ∧
    rootNotChild sampleTwo = true ∧ keysMatch sampleTwo = true ∧
    UndoRedoRestores sampleTwo (opState (addChild sampleTwo 2 "task b" 3)) :=
  ⟨by decide, by decide, by decide, by decide,
    (C1_undo_redo sampleTwo (by decide) (by decide) (by decide) (by decide)).1 2 "task b" 3
      3 (opState (addChild sampleTwo 2 "task b" 3)) (by decide)⟩

/-! ## Claim C4 -/

/-- C4: starting from a healthy state, after every operation of the state
machine (addChild, addSibling, renameNode, focusNode, completeNode,
deleteNode, undo, redo) the resulting focusedNodeId resolves to an
existing node with active status; and whenever a mutation leaves the focus
pointing at a missing or non-active node, the ensure-focus correction
resets it to rootId. -/
theorem C4_focus_invariant (s : TreeState)
    (hf : focusOk s = true) (hra : rootActive s = true) (hrc : rootNotChild s = true)
    (hkm : keysMatch s = true) (hsg : stacksGood s = true) :
    (∀ p t now v s1, addChild s p t now = .ok v s1 → focusOk s1 = true) ∧
    (∀ n t now v s1, addSibling s n t now = .ok v s1 → focusOk s1 = true) ∧
    (∀ n t now s1, renameNode s n t now = .ok () s1 → focusOk s1 = true) ∧
    (∀ n s1, focusNode s n = .ok () s1 → focusOk s1 = true) ∧
    (∀ n now v s1, completeNode s n now = some (.ok v s1) → focusOk s1 = true) ∧
    (∀ n now v s1, deleteNode s n now = some (.ok v s1) → focusOk s1 = true) ∧
    focusOk (undo s) = true ∧
    focusOk (redo s) = true ∧
    (∀ x : TreeState, isActiveIn x.nodes x.focusedNodeId = false →
      (ensureFocus x).focusedNodeId = x.rootId) := by
  have haddChild : ∀ p t now v s1, addChild s p t now = .ok v s1 → focusOk s1 = true := by
    intro p t now v s1 h
    cases ha : assertNode s p with
    | none =>
      rw [addChild_err s p t now ha] at h
      cases h
    | some parent =>
      rw [addChild_ok s p t now parent ha] at h
      injection h with hv hst
      subst hst
      unfold focusOk isActiveIn
      dsimp only
      rw [lookupNode_setNode]
      simp [createNode]
  have hsoft : ∀ n now v s1, softDeleteInternal s n now = some (.ok v s1) →
      focusOk s1 = true :=
    fun n now v s1 h => softDelete_focusOk s n now v s1 hra hrc hkm h
  refine ⟨haddChild, ?_, ?_, ?_, hsoft, hsoft, ?_, ?_, ?_⟩
  · intro n t now v s1 h
    cases ha : assertNode s n with
    | none =>
      rw [addSibling_err s n t now ha] at h
      cases h
    | some node =>
      rw [addSibling_ok s n t now node ha] at h
      exact haddChild _ t now v s1 h
  · intro n t now s1 h
    cases ha : assertNode s n with
    | none =>
      rw [renameNode_err s n t now ha] at h
      cases h
    | some node =>
      have hact := (assertNode_some s n node ha).2
      rw [renameNode_ok s n t now node ha] at h
      injection h with hv hst
      subst hst
      unfold focusOk isActiveIn
      dsimp only
      rw [lookupNode_setNode]
      by_cases hfn : n = s.focusedNodeId
      · rw [if_pos hfn]
        dsimp only
        rw [hact]
        rfl
      · rw [if_neg hfn]
        unfold focusOk isActiveIn at hf
        exact hf
  · intro n s1 h
    cases ha : assertNode s n with
    | none =>
      rw [focusNode_err s n ha] at h
      cases h
    | some node =>
      have hlook := (assertNode_some s n node ha).1
      have hact := (assertNode_some s n node ha).2
      have hnid : node.id = n := keysMatch_lookup s hkm n node hlook
      rw [focusNode_ok s n node ha] at h
      injection h with hv hst
      subst hst
      unfold focusOk isActiveIn
      dsimp only
      rw [hnid, hlook]
      dsimp only
      rw [hact]
      rfl
  · cases hl : s.undoStack.getLast? with
    | none =>
      rw [undo_empty s (List.getLast?_eq_none_iff.mp hl)]
      exact hf
    | some snap =>
      have hgs : goodSnap snap = true :=
        stacksGood_undo s hsg snap (List.mem_of_mem_getLast? hl)
      rw [undo_eq_of_getLast s snap hl]
      unfold applySnapshot
      exact focusOk_ensureFocus _ hgs
  · cases hl : s.redoStack.getLast? with
    | none =>
      rw [redo_empty s (List.getLast?_eq_none_iff.mp hl)]
      exact hf
    | some snap =>
      have hgs : goodSnap snap = true :=
        stacksGood_redo s hsg snap (List.mem_of_mem_getLast? hl)
      rw [redo_eq_of_getLast s snap hl]
      unfold applySnapshot
      exact focusOk_ensureFocus _ hgs
  · intro x hx
    rw [ensureFocus_focus, if_neg]
    rw [hx]
    exact Bool.false_ne_true

/-- Witness for C4 at the two-node sample: completing the child keeps the
focus valid (back on the root), as does an undo. -/
theorem C4_witness :
    focusOk sampleTwo = true ∧
    completeNode sampleTwo 2 4 = some (.ok 1 (optOpState (completeNode sampleTwo 2 4))) ∧
    focusOk (optOpState (completeNode sampleTwo 2 4)) = true ∧
    focusOk (undo sampleTwo) = true :=
  ⟨by decide, by decide,
    (C4_focus_invariant sampleTwo (by decide) (by decide) (by decide) (by decide)
        (by decide)).2.2.2.2.1 2 4 1 (optOpState (completeNode sampleTwo 2 4)) (by decide),
    (C4_focus_invariant sampleTwo (by decide) (by decide) (by decide) (by decide)
        (by decide)).2.2.2.2.2.2.1⟩

/-! ## Claim C5 -/

theorem applySnapshot_undoStack (x : TreeState) (snap : Snapshot) :
    (applySnapshot x snap).undoStack = x.undoStack := by
  unfold applySnapshot
  exact ensureFocus_undoStack _

theorem applySnapshot_redoStack (x : TreeState) (snap : Snapshot) :
    (applySnapshot x snap).redoStack = x.redoStack := by
  unfold applySnapshot
  exact ensureFocus_redoStack _

theorem applyMut_stacks (c : MutCmd) (s s1 : TreeState) (h : applyMut c s = some s1) :
    s1.undoStack = pushCapped s.undoStack (snapshotOf s) ∧ s1.redoStack = [] := by
  have haddChild : ∀ p t now, (match addChild s p t now with
      | .ok _ st => some st
      | .err _ _ => none) = some s1 →
      s1.undoStack = pushCapped s.undoStack (snapshotOf s) ∧ s1.redoStack = [] := by
    intro p t now h2
    cases ha : assertNode s p with
    | none =>
      rw [addChild_err s p t now ha] at h2
      cases h2
    | some parent =>
      rw [addChild_ok s p t now parent ha] at h2
      dsimp only at h2
      injection h2 with h3
      subst h3
      exact ⟨rfl, rfl⟩
  cases c with
  | child p t now => exact haddChild p t now h
  | sibling n t now =>
    unfold applyMut at h
    dsimp only at h
    cases ha : assertNode s n with
    | none =>
      rw [addSibling_err s n t now ha] at h
      cases h
    | some node =>
      rw [addSibling_ok s n t now node ha] at h
      exact haddChild _ t now h
  | rename n t now =>
    unfold applyMut at h
    dsimp only at h
    cases ha : assertNode s n with
    | none =>
      rw [renameNode_err s n t now ha] at h
      cases h
    | some node =>
      rw [renameNode_ok s n t now node ha] at h
      dsimp only at h
      injection h with h3
      subst h3
      exact ⟨rfl, rfl⟩
  | complete n now =>
    unfold applyMut at h
    dsimp only at h
    cases hop : completeNode s n now with
    | none =>
      rw [hop] at h
      cases h
    | some r =>
      rw [hop] at h
      cases r with
      | ok v st =>
        dsimp only at h
        injection h with h3
        subst h3
        obtain ⟨h4, h5, _, _, _⟩ := softDelete_stacks s n now v st hop
        exact ⟨h4, h5⟩
      | err e st =>
        dsimp only at h
        cases h
  | delete n now =>
    unfold applyMut at h
    dsimp only at h
    cases hop : deleteNode s n now with
    | none =>
      rw [hop] at h
      cases h
    | some r =>
      rw [hop] at h
      cases r with
      | ok v st =>
        dsimp only at h
        injection h with h3
        subst h3
        obtain ⟨h4, h5, _, _, _⟩ := softDelete_stacks s n now v st hop
        exact ⟨h4, h5⟩
      | err e st =>
        dsimp only at h
        cases h

theorem runMut_undoStack (cs : List MutCmd) (s : TreeState) (pre : List Snapshot)
    (sfin : TreeState) (hs : s.undoStack = lastN MAX_HISTORY pre)
    (h : runMut s cs = some sfin) :
    sfin.undoStack = lastN MAX_HISTORY (pre ++ mutSnaps s cs) := by
  induction cs generalizing s pre with
  | nil =>
    unfold runMut at h
    injection h with h2
    rw [← h2]
    rw [show mutSnaps s [] = ([] : List Snapshot) from rfl, List.append_nil]
    exact hs
  | cons c cs ih =>
    unfold runMut at h
    cases hc : applyMut c s with
    | none =>
      rw [hc] at h
      cases h
    | some s1 =>
      rw [hc] at h
      dsimp only at h
      have hstacks := applyMut_stacks c s s1 hc
      have hs1 : s1.undoStack = lastN MAX_HISTORY (pre ++ [snapshotOf s]) := by
        rw [hstacks.1, hs, pushCapped_lastN]
      have hmain := ih s1 (pre ++ [snapshotOf s]) hs1 h
      rw [hmain]
      have hsnaps : mutSnaps s (c :: cs) = snapshotOf s :: mutSnaps s1 cs := by
        show (match applyMut c s with
          | none => []
          | some s2 => snapshotOf s :: mutSnaps s2 cs) = snapshotOf s :: mutSnaps s1 cs
        rw [hc]
      rw [hsnaps]
      rw [show pre ++ (snapshotOf s :: mutSnaps s1 cs) =
        (pre ++ [snapshotOf s]) ++ mutSnaps s1 cs by simp]

theorem mutSnaps_length (cs : List MutCmd) (s sfin : TreeState)
    (h : runMut s cs = some sfin) : (mutSnaps s cs).length = cs.length := by
  induction cs generalizing s with
  | nil => rfl
  | cons c cs ih =>
    unfold runMut at h
    cases hc : applyMut c s with
    | none =>
      rw [hc] at h
      cases h
    | some s1 =>
      rw [hc] at h
      dsimp only at h
      have hsnaps : mutSnaps s (c :: cs) = snapshotOf s :: mutSnaps s1 cs := by
        show (match applyMut c s with
          | none => []
          | some s2 => snapshotOf s :: mutSnaps s2 cs) = snapshotOf s :: mutSnaps s1 cs
        rw [hc]
      rw [hsnaps, List.length_cons, List.length_cons, ih s1 h]

/-- C5: the undo stack stays within the 200-entry cap under every
operation (the total history load is preserved or reduced), every
successful mutating command pushes one snapshot and clears the redo stack,
a push at capacity discards the oldest entry, and after a run of
`MAX_HISTORY + 1` successful mutating commands from an empty undo stack the
final undo stack is exactly the run's snapshots with the snapshot of the
starting state (the state preceding the first command) dropped — so that
state can no longer be reached by repeated undo. -/
theorem C5_undo_cap :
    (∀ s c s1, applyMut c s = some s1 →
      s1.undoStack = pushCapped s.undoStack (snapshotOf s) ∧ s1.redoStack = []) ∧
    (∀ s, stackLoad s ≤ MAX_HISTORY →
      (∀ c s1, applyMut c s = some s1 →
        stackLoad s1 ≤ MAX_HISTORY ∧ s1.undoStack.length ≤ MAX_HISTORY) ∧
      (stackLoad (undo s) ≤ MAX_HISTORY ∧ (undo s).undoStack.length ≤ MAX_HISTORY) ∧
      (stackLoad (redo s) ≤ MAX_HISTORY ∧ (redo s).undoStack.length ≤ MAX_HISTORY)) ∧
    (∀ s c s1, s.undoStack.length = MAX_HISTORY → applyMut c s = some s1 →
      s1.undoStack = s.undoStack.tail ++ [snapshotOf s]) ∧
    (∀ s0 cs sfin, s0.undoStack = [] → runMut s0 cs = some sfin →
      sfin.undoStack = lastN MAX_HISTORY (mutSnaps s0 cs) ∧
      (cs.length = MAX_HISTORY + 1 →
        mutSnaps s0 cs = snapshotOf s0 :: (mutSnaps s0 cs).tail ∧
        sfin.undoStack = (mutSnaps s0 cs).tail)) := by
  refine ⟨fun s c s1 h => applyMut_stacks c s s1 h, ?_, ?_, ?_⟩
  · intro s hload
    refine ⟨?_, ?_, ?_⟩
    · intro c s1 h
      obtain ⟨hU, hR⟩ := applyMut_stacks c s s1 h
      have hu : s.undoStack.length ≤ MAX_HISTORY := by
        unfold stackLoad at hload
        omega
      have h1 : s1.undoStack.length ≤ MAX_HISTORY := by
        rw [hU]
        exact pushCapped_length_le _ _ hu
      constructor
      · unfold stackLoad
        rw [hR]
        simpa using h1
      · exact h1
    · cases hl : s.undoStack.getLast? with
      | none =>
        rw [undo_empty s (List.getLast?_eq_none_iff.mp hl)]
        refine ⟨hload, ?_⟩
        unfold stackLoad at hload
        omega
      | some snap =>
        rw [undo_eq_of_getLast s snap hl]
        have hne : s.undoStack ≠ [] := by
          intro hh
          rw [hh] at hl
          cases hl
        have hpos : 1 ≤ s.undoStack.length := by
          cases hcs : s.undoStack with
          | nil => exact absurd hcs hne
          | cons a r => simp
        unfold stackLoad at hload ⊢
        rw [applySnapshot_undoStack, applySnapshot_redoStack]
        dsimp only
        rw [List.length_dropLast, List.length_append]
        simp only [List.length_singleton]
        omega
    · cases hl : s.redoStack.getLast? with
      | none =>
        rw [redo_empty s (List.getLast?_eq_none_iff.mp hl)]
        refine ⟨hload, ?_⟩
        unfold stackLoad at hload
        omega
      | some snap =>
        rw [redo_eq_of_getLast s snap hl]
        have hne : s.redoStack ≠ [] := by
          intro hh
          rw [hh] at hl
          cases hl
        have hpos : 1 ≤ s.redoStack.length := by
          cases hcs : s.redoStack with
          | nil => exact absurd hcs hne
          | cons a r => simp
        unfold stackLoad at hload ⊢
        rw [applySnapshot_undoStack, applySnapshot_redoStack]
        dsimp only
        rw [List.length_dropLast, List.length_append]
        simp only [List.length_singleton]
        omega
  · intro s c s1 hfull h
    obtain ⟨hU, hR⟩ := applyMut_stacks c s s1 h
    rw [hU]
    exact pushCapped_tail_of_full _ _ hfull
  · intro s0 cs sfin h0 hrun
    have hbase : s0.undoStack = lastN MAX_HISTORY [] := by
      rw [h0]
      rfl
    have hmain := runMut_undoStack cs s0 [] sfin hbase hrun
    rw [List.nil_append] at hmain
    refine ⟨hmain, ?_⟩
    intro hlen
    have hsl : (mutSnaps s0 cs).length = MAX_HISTORY + 1 := by
      rw [mutSnaps_length cs s0 sfin hrun]
      exact hlen
    have hhead : mutSnaps s0 cs = snapshotOf s0 :: (mutSnaps s0 cs).tail := by
      cases cs with
      | nil =>
        rw [List.length_nil] at hlen
        cases hlen
      | cons c cs2 =>
        unfold runMut at hrun
        cases hc : applyMut c s0 with
        | none =>
          rw [hc] at hrun
          cases hrun
        | some s1 =>
          have hsnaps : mutSnaps s0 (c :: cs2) = snapshotOf s0 :: mutSnaps s1 cs2 := by
            show (match applyMut c s0 with
              | none => []
              | some s2 => snapshotOf s0 :: mutSnaps s2 cs2) =
              snapshotOf s0 :: mutSnaps s1 cs2
            rw [hc]
          rw [hsnaps]
          rfl
    refine ⟨hhead, ?_⟩
    rw [hmain]
    unfold lastN
    rw [hsl, Nat.add_sub_cancel_left, List.drop_one]

/-- Witness for C5: a one-command run from the fresh sample session leaves
its snapshot as the whole undo stack. -/
theorem C5_witness :
    sampleState.undoStack = [] ∧
    runMut sampleState [MutCmd.child 1 "task a" 1] = some sampleTwo ∧
    sampleTwo.undoStack = lastN MAX_HISTORY (mutSnaps sampleState [MutCmd.child 1 "task a" 1]) ∧
    ([MutCmd.child 1 "task a" 1].length = MAX_HISTORY + 1 →
      mutSnaps sampleState [MutCmd.child 1 "task a" 1] =
        snapshotOf sampleState :: (mutSnaps sampleState [MutCmd.child 1 "task a" 1]).tail ∧
      sampleTwo.undoStack = (mutSnaps sampleState [MutCmd.child 1 "task a" 1]).tail) :=
  ⟨by decide, by decide,
    (C5_undo_cap.2.2.2 sampleState [MutCmd.child 1 "task a" 1] sampleTwo (by decide)
      (by decide)).1,
    (C5_undo_cap.2.2.2 sampleState [MutCmd.child 1 "task a" 1] sampleTwo (by decide)
      (by decide)).2⟩

/-! ## Claim C2 -/

/-- C2: `completeNode` and `deleteNode` are the same function on the tree
state; every successful call on a non-root active node pushes exactly one
undo snapshot and clears the redo stack, marks every node collected by the
iterative subtree traversal (all of which were active, including the node
itself for any real non-zero id) as deleted with one shared
deletedAt/updatedAt timestamp, leaves every other entry except the resolved
parent untouched — in particular already-deleted nodes are never re-stamped
or resurrected — returns `nextFocusId` equal to the result's focus, and, in
an id-keyed state with an active root that is nobody's child, detaches the
node from its parent's childrenIds and focuses the parent if it is still
active after marking, the root otherwise. -/
theorem C2_soft_delete (s : TreeState) (n : Nat) (now : Nat) :
    completeNode s n now = deleteNode s n now ∧
    (∀ nf st, softDeleteInternal s n now = some (.ok nf st) →
      ∃ node ids,
        assertNode s n = some node ∧
        collectSubtree s n = some ids ∧
        st.undoStack = pushCapped s.undoStack (snapshotOf s) ∧
        st.redoStack = [] ∧
        nf = st.focusedNodeId ∧
        (n ≠ 0 → n ∈ ids) ∧
        (∀ x ∈ ids, ∃ v, lookupNode s.nodes x = some v ∧ v.status = .active ∧
          lookupNode st.nodes x = some (markDeleted now v)) ∧
        (∀ j, j ∉ ids → j ≠ node.parentId.getD s.rootId →
          lookupNode st.nodes j = lookupNode s.nodes j) ∧
        (∀ j v, lookupNode s.nodes j = some v → v.status = .deleted →
          lookupNode st.nodes j = some v) ∧
        (keysMatch s = true → rootActive s = true → rootNotChild s = true →
          ((∃ parent,
              lookupNode (markAll now s.nodes ids) (node.parentId.getD s.rootId) =
                some parent ∧
              parent.status = .active ∧
              nf = node.parentId.getD s.rootId ∧
              lookupNode st.nodes (node.parentId.getD s.rootId) =
                some { parent with
                  childrenIds := parent.childrenIds.filter (fun childId => childId ≠ node.id)
                  updatedAt := now }) ∨
            ((∀ parent,
                lookupNode (markAll now s.nodes ids) (node.parentId.getD s.rootId) =
                  some parent →
                parent.status ≠ .active) ∧
              nf = s.rootId)))) := by
  refine ⟨rfl, ?_⟩
  intro nf st h
  obtain ⟨node, ids, ha, hroot, hc, hnf, hcase⟩ := softDelete_ok_shape s n now nf st h
  obtain ⟨hU, hR, _hrt, _hsid, _hxid⟩ := softDelete_stacks s n now nf st h
  have hlook := (assertNode_some s n node ha).1
  have hact0 := (assertNode_some s n node ha).2
  have hc2 : collectSubtreeAux s.nodes (collectFuel s.nodes) [n] [] = some ids := hc
  have hsound := collectAux_sound s.nodes (collectFuel s.nodes) [n] [] ids hc2
    (fun x hx => absurd hx (List.not_mem_nil x))
  have hnodes :
      (∃ parent,
        lookupNode (markAll now s.nodes ids) (node.parentId.getD s.rootId) = some parent ∧
        parent.status = .active ∧
        (node.parentId.getD s.rootId) ∉ ids ∧
        st.nodes = setNode (markAll now s.nodes ids) (node.parentId.getD s.rootId)
          { parent with
            childrenIds := parent.childrenIds.filter (fun childId => childId ≠ node.id)
            updatedAt := now }) ∨
      (st.nodes = markAll now s.nodes ids) := by
    rcases hcase with ⟨parent, hp, hactp, hst⟩ | ⟨hnp, hst⟩
    · left
      have hpk_not : (node.parentId.getD s.rootId) ∉ ids := by
        intro hmem
        obtain ⟨w, hw, hwact⟩ := hsound _ hmem
        rw [lookupNode_markAll_mem now ids s.nodes _ w hmem hw] at hp
        injection hp with hp2
        rw [← hp2] at hactp
        simp [markDeleted] at hactp
      refine ⟨parent, hp, hactp, hpk_not, ?_⟩
      rw [hst, ensureFocus_nodes]
    · right
      rw [hst, ensureFocus_nodes]
  refine ⟨node, ids, ha, hc, hU, hR, hnf, ?_, ?_, ?_, ?_, ?_⟩
  · intro hn0
    exact collectSubtree_start_mem s n hn0 node hlook hact0 ids hc
  · intro x hx
    obtain ⟨v, hv, hvact⟩ := hsound x hx
    refine ⟨v, hv, hvact, ?_⟩
    rcases hnodes with ⟨parent, hp, hactp, hpk_not, hstn⟩ | hstn
    · rw [hstn, lookupNode_setNode]
      have hxpk : ¬(node.parentId.getD s.rootId) = x := fun hh => hpk_not (hh ▸ hx)
      rw [if_neg hxpk]
      exact lookupNode_markAll_mem now ids s.nodes x v hx hv
    · rw [hstn]
      exact lookupNode_markAll_mem now ids s.nodes x v hx hv
  · intro j hj hjpk
    rcases hnodes with ⟨parent, hp, hactp, hpk_not, hstn⟩ | hstn
    · rw [hstn, lookupNode_setNode, if_neg (fun hh => hjpk hh.symm)]
      exact lookupNode_markAll_notMem now ids s.nodes j hj
    · rw [hstn]
      exact lookupNode_markAll_notMem now ids s.nodes j hj
  · intro j v hjv hdel
    have hj_not : j ∉ ids := by
      intro hj
      obtain ⟨w, hw, hwact⟩ := hsound j hj
      rw [hjv] at hw
      injection hw with hw2
      rw [← hw2] at hwact
      rw [hdel] at hwact
      cases hwact
    rcases hnodes with ⟨parent, hp, hactp, hpk_not, hstn⟩ | hstn
    · by_cases hjpk : j = node.parentId.getD s.rootId
      · exfalso
        rw [← hjpk] at hp
        rw [lookupNode_markAll_notMem now ids s.nodes j hj_not, hjv] at hp
        injection hp with hp2
        rw [← hp2] at hactp
        rw [hdel] at hactp
        cases hactp
      · rw [hstn, lookupNode_setNode, if_neg (fun hh => hjpk hh.symm),
          lookupNode_markAll_notMem now ids s.nodes j hj_not]
        exact hjv
    · rw [hstn, lookupNode_markAll_notMem now ids s.nodes j hj_not]
      exact hjv
  · intro hkm hra hrc
    rcases hcase with ⟨parent, hp, hactp, hst⟩ | ⟨hnp, hst⟩
    · left
      have hpk_not : (node.parentId.getD s.rootId) ∉ ids := by
        intro hmem
        obtain ⟨w, hw, hwact⟩ := hsound _ hmem
        rw [lookupNode_markAll_mem now ids s.nodes _ w hmem hw] at hp
        injection hp with hp2
        rw [← hp2] at hactp
        simp [markDeleted] at hactp
      have hppk : lookupNode s.nodes (node.parentId.getD s.rootId) = some parent := by
        rw [← lookupNode_markAll_notMem now ids s.nodes _ hpk_not]
        exact hp
      have hpid : parent.id = node.parentId.getD s.rootId :=
        keysMatch_lookup s hkm _ parent hppk
      have hlive2 : isActiveIn
          (setNode (markAll now s.nodes ids) (node.parentId.getD s.rootId)
            { parent with
              childrenIds := parent.childrenIds.filter (fun childId => childId ≠ node.id)
              updatedAt := now })
          parent.id = true := by
        unfold isActiveIn
        rw [hpid, lookupNode_setNode, if_pos rfl]
        exact decide_eq_true hactp
      have hfocus : st.focusedNodeId = node.parentId.getD s.rootId := by
        rw [hst, ensureFocus_focus]
        dsimp only
        rw [if_pos hlive2]
        exact hpid
      refine ⟨parent, hp, hactp, ?_, ?_⟩
      · rw [hnf, hfocus]
      · rw [hst]
        rw [ensureFocus_nodes]
        dsimp only
        rw [lookupNode_setNode, if_pos rfl]
    · right
      have hn_ne_root : n ≠ s.rootId := by
        rw [← keysMatch_lookup s hkm n node hlook]
        exact hroot
      have hroots := collect_ne_root s n ids hrc hn_ne_root hc
      have hlive : isActiveIn (markAll now s.nodes ids) s.rootId = true := by
        unfold isActiveIn
        rw [lookupNode_markAll_notMem now ids s.nodes s.rootId
          (fun hmem => hroots _ hmem rfl)]
        exact hra
      have hfocus : st.focusedNodeId = s.rootId := by
        rw [hst, ensureFocus_focus]
        dsimp only
        rw [if_pos hlive]
      exact ⟨hnp, by rw [hnf, hfocus]⟩

/-- Witness for C2: completing the only child of the sample root marks it
deleted with the shared stamp, detaches it from the root, and focuses the
root. -/
theorem C2_witness :
    ∃ node ids,
      assertNode sampleTwo 2 = some node ∧
      collectSubtree sampleTwo 2 = some ids ∧
      (optOpState (completeNode sampleTwo 2 7)).undoStack =
        pushCapped sampleTwo.undoStack (snapshotOf sampleTwo) ∧
      (optOpState (completeNode sampleTwo 2 7)).redoStack = [] ∧
      (1 : Nat) = (optOpState (completeNode sampleTwo 2 7)).focusedNodeId ∧
      ((2 : Nat) ≠ 0 → 2 ∈ ids) ∧
      (∀ x ∈ ids, ∃ v, lookupNode sampleTwo.nodes x = some v ∧ v.status = .active ∧
        lookupNode (optOpState (completeNode sampleTwo 2 7)).nodes x =
          some (markDeleted 7 v)) ∧
      (∀ j, j ∉ ids → j ≠ node.parentId.getD sampleTwo.rootId →
        lookupNode (optOpState (completeNode sampleTwo 2 7)).nodes j =
          lookupNode sampleTwo.nodes j) ∧
      (∀ j v, lookupNode sampleTwo.nodes j = some v → v.status = .deleted →
        lookupNode (optOpState (completeNode sampleTwo 2 7)).nodes j = some v) ∧
      (keysMatch sampleTwo = true → rootActive sampleTwo = true →
        rootNotChild sampleTwo = true →
        ((∃ parent,
            lookupNode (markAll 7 sampleTwo.nodes ids) (node.parentId.getD sampleTwo.rootId) =
              some parent ∧
            parent.status = .active ∧
            (1 : Nat) = node.parentId.getD sampleTwo.rootId ∧
            lookupNode (optOpState (completeNode sampleTwo 2 7)).nodes
                (node.parentId.getD sampleTwo.rootId) =
              some { parent with
                childrenIds := parent.childrenIds.filter (fun childId => childId ≠ node.id)
                updatedAt := 7 }) ∨
          ((∀ parent,
              lookupNode (markAll 7 sampleTwo.nodes ids) (node.parentId.getD sampleTwo.rootId) =
                some parent →
              parent.status ≠ .active) ∧
            (1 : Nat) = sampleTwo.rootId))) :=
  (C2_soft_delete sampleTwo 2 7).2 1 (optOpState (completeNode sampleTwo 2 7)) (by decide)

/-! ## Claim C9 -/

/-- C9 counterexample: `cexState` satisfies the cascade invariant (no node
is deleted at all) and has an active root, node 2 is a non-root active node
whose parent 3 exists and is active, yet deleting node 2 succeeds with
`nextFocusId = 1` (the root), not the parent 3: the traversal collects the
parent into node 2's subtree, marks it deleted, and the root-fallback
branch runs. -/
theorem C9_counterexample :
    cascadeInv cexState = true ∧
    rootActive cexState = true ∧
    assertNode cexState 2 = some (cexNode 2 (some 3) [3]) ∧
    (cexNode 2 (some 3) [3]).parentId = some 3 ∧
    assertNode cexState 3 = some (cexNode 3 (some 1) []) ∧
    collectSubtree cexState 2 = some [2, 3] ∧
    lookupNode (markAll 5 cexState.nodes [2, 3]) 3 =
      some (markDeleted 5 (cexNode 3 (some 1) [])) ∧
    (markDeleted 5 (cexNode 3 (some 1) [])).status = .deleted ∧
    softDeleteInternal cexState 2 5 =
      some (.ok 1 (optOpState (softDeleteInternal cexState 2 5))) ∧
    (1 : Nat) ≠ 3 := by
  decide

theorem cascadeInv_lookup (s : TreeState) (h : cascadeInv s = true)
    (k : Nat) (v : Node) (p : Nat) (pv : Node)
    (hv : lookupNode s.nodes k = some v) (hp : v.parentId = some p)
    (hpv : lookupNode s.nodes p = some pv) (hdel : pv.status = .deleted) :
    v.status = .deleted := by
  have hmem := lookupNode_mem _ _ _ hv
  unfold cascadeInv at h
  rw [List.all_eq_true] at h
  have h2 := h _ hmem
  dsimp only at h2
  rw [hp] at h2
  dsimp only at h2
  rw [hpv] at h2
  dsimp only at h2
  rw [hdel] at h2
  simp at h2
  exact h2

/-- C9 (amended): in every id-keyed state satisfying the soft-delete
cascade invariant with an active root, where the non-root node's parent
link resolves to an existing node listing it as a child, and where the
child graph is acyclic (witnessed by a rank that strictly increases from
every stored node to each of its children), the parent is active, a
successful completeNode/deleteNode of the node still finds the parent
active after marking the collected subtree — the root-fallback branch is
unreachable — and the returned nextFocusId equals the parent id. -/
theorem C9_parent_focus (s : TreeState) (n : Nat) (now : Nat) (p : Nat) (pv node : Node)
    (depth : Nat → Nat)
    (hcas : cascadeInv s = true) (_hra : rootActive s = true) (hkm : keysMatch s = true)
    (hdepth : ∀ kv ∈ s.nodes, ∀ c ∈ kv.2.childrenIds, depth kv.1 < depth c)
    (ha : assertNode s n = some node)
    (hpar : node.parentId = some p)
    (hpv : lookupNode s.nodes p = some pv)
    (hchild : n ∈ pv.childrenIds) :
    pv.status = .active ∧
    (∀ nf st, softDeleteInternal s n now = some (.ok nf st) →
      nf = p ∧
      ∃ ids, collectSubtree s n = some ids ∧ p ∉ ids ∧
        lookupNode (markAll now s.nodes ids) p = some pv) := by
  have hlook := (assertNode_some s n node ha).1
  have hact0 := (assertNode_some s n node ha).2
  have hdepth2 : ∀ k v, lookupNode s.nodes k = some v →
      ∀ c ∈ v.childrenIds, depth k < depth c :=
    fun k v hkv c hc => hdepth (k, v) (lookupNode_mem _ _ _ hkv) c hc
  have hpv_active : pv.status = .active := by
    cases hs : pv.status with
    | active => rfl
    | deleted =>
      have hnd := cascadeInv_lookup s hcas n node p pv hlook hpar hpv hs
      rw [hnd] at hact0
      cases hact0
  refine ⟨hpv_active, ?_⟩
  intro nf st h
  obtain ⟨node2, ids, ha2, hroot2, hc, hnf, hcase⟩ := softDelete_ok_shape s n now nf st h
  have hnode2 : node = node2 := by
    rw [ha] at ha2
    injection ha2
  subst hnode2
  have hpk : node.parentId.getD s.rootId = p := by
    rw [hpar]
    rfl
  have hc2 : collectSubtreeAux s.nodes (collectFuel s.nodes) [n] [] = some ids := hc
  have hdeep : ∀ x ∈ ids, depth n ≤ depth x := by
    refine collectAux_closed s.nodes (fun x => depth n ≤ depth x) ?_ _ _ _ _ hc2 ?_ ?_
    · intro c v hlv hsv hPc x hx
      exact le_of_lt (lt_of_le_of_lt hPc (hdepth2 c v hlv x hx))
    · intro x hx
      have hxn : x = n := by simpa using hx
      rw [hxn]
    · intro x hx
      cases hx
  have hp_not : p ∉ ids := by
    intro hmem
    have h1 : depth n ≤ depth p := hdeep p hmem
    have h2 : depth p < depth n := hdepth2 p pv hpv n hchild
    omega
  have hm1 : lookupNode (markAll now s.nodes ids) p = some pv := by
    rw [lookupNode_markAll_notMem now ids s.nodes p hp_not]
    exact hpv
  rcases hcase with ⟨parent, hp2, hactp, hst⟩ | ⟨hnp, hst⟩
  · rw [hpk] at hp2
    have hparent : pv = parent := by
      rw [hm1] at hp2
      injection hp2
    subst hparent
    have hpid : pv.id = p := keysMatch_lookup s hkm p pv hpv
    refine ⟨?_, ids, hc, hp_not, hm1⟩
    have hlive2 : isActiveIn
        (setNode (markAll now s.nodes ids) (node.parentId.getD s.rootId)
          { pv with
            childrenIds := pv.childrenIds.filter (fun childId => childId ≠ node.id)
            updatedAt := now })
        pv.id = true := by
      unfold isActiveIn
      rw [hpid, hpk, lookupNode_setNode, if_pos rfl]
      exact decide_eq_true hactp
    have hfocus : st.focusedNodeId = p := by
      rw [hst, ensureFocus_focus]
      dsimp only
      rw [if_pos hlive2]
      exact hpid
    rw [hnf, hfocus]
  · exfalso
    rw [hpk] at hnp
    exact hnp pv hm1 hpv_active

/-- Witness for the amended C9 at the two-node sample: deleting the child
returns focus to its parent, the root. -/
theorem C9_witness :
    cascadeInv sampleTwo = true ∧ rootActive sampleTwo = true ∧
    keysMatch sampleTwo = true ∧
    (∀ kv ∈ sampleTwo.nodes, ∀ c ∈ kv.2.childrenIds, kv.1 < c) ∧
    sampleRootNode.status = .active ∧
    (∀ nf st, softDeleteInternal sampleTwo 2 7 = some (.ok nf st) →
      nf = 1 ∧
      ∃ ids, collectSubtree sampleTwo 2 = some ids ∧ 1 ∉ ids ∧
        lookupNode (markAll 7 sampleTwo.nodes ids) 1 = some sampleRootNode) :=
  ⟨by decide, by decide, by decide, by decide,
    (C9_parent_focus sampleTwo 2 7 1 sampleRootNode
      (createNode 2 (some 1) "task a" 1) (fun k => k)
      (by decide) (by decide) (by decide) (by decide) (by decide) (by decide) (by decide)
      (by decide)).1,
    (C9_parent_focus sampleTwo 2 7 1 sampleRootNode
      (createNode 2 (some 1) "task a" 1) (fun k => k)
      (by decide) (by decide) (by decide) (by decide) (by decide) (by decide) (by decide)
      (by decide)).2⟩

/-! ## Claim C6 -/

theorem setNode_mem (m : NodeMap) (k : Nat) (v : Node) (kv : Nat × Node)
    (h : kv ∈ setNode m k v) : kv ∈ m ∨ kv = (k, v) := by
  induction m with
  | nil =>
    unfold setNode at h
    rcases List.mem_singleton.mp h with h2
    exact Or.inr h2
  | cons kv1 rest ih =>
    obtain ⟨k1, v1⟩ := kv1
    unfold setNode at h
    by_cases h1 : k1 = k
    · rw [if_pos h1] at h
      rcases List.mem_cons.mp h with h2 | h2
      · exact Or.inr h2
      · exact Or.inl (List.mem_cons_of_mem _ h2)
    · rw [if_neg h1] at h
      rcases List.mem_cons.mp h with h2 | h2
      · exact Or.inl (h2 ▸ List.mem_cons_self _ _)
      · rcases ih h2 with h3 | h3
        · exact Or.inl (List.mem_cons_of_mem _ h3)
        · exact Or.inr h3

theorem count_eq_zero_of_ne (l : List Nat) (j : Nat)
    (h : ∀ c ∈ l, c ≠ j) : List.count j l = 0 := by
  rw [List.count_eq_zero]
  intro hmem
  exact h j hmem rfl

/-- One successful `addChild` (as wrapped by `applyMut`) preserves the
bookkeeping invariants and the multiplicity-one property of any previously
allocated child reference. -/
theorem addChild_step_preserves (s s1 : TreeState) (q j p : Nat) (t : String) (now : Nat)
    (hib : idsBounded s = true) (hkm : keysMatch s = true)
    (hj : j < s.nextId) (hq : q < s.nextId)
    (hcount : ∃ w, lookupNode s.nodes q = some w ∧ List.count j w.childrenIds = 1)
    (h : (match addChild s p t now with
      | .ok _ st => some st
      | .err _ _ => none) = some s1) :
    idsBounded s1 = true ∧ keysMatch s1 = true ∧ j < s1.nextId ∧ q < s1.nextId ∧
    ∃ w, lookupNode s1.nodes q = some w ∧ List.count j w.childrenIds = 1 := by
  cases ha : assertNode s p with
  | none =>
    rw [addChild_err s p t now ha] at h
    cases h
  | some parent =>
    rw [addChild_ok s p t now parent ha] at h
    dsimp only at h
    injection h with h2
    have hplook := (assertNode_some s p parent ha).1
    have hpid : parent.id = p := keysMatch_lookup s hkm p parent hplook
    have hpbound := idsBounded_lookup s hib p parent hplook
    obtain ⟨w0, hw0, hcnt0⟩ := hcount
    refine ⟨?_, ?_, ?_, ?_, ?_⟩
    · rw [← h2]
      unfold idsBounded
      dsimp only
      rw [List.all_eq_true]
      intro kv hkv
      rcases setNode_mem _ _ _ _ hkv with hkv2 | hkv2
      · rcases setNode_mem _ _ _ _ hkv2 with hkv3 | hkv3
        · have hold := idsBounded_lookup s hib
          unfold idsBounded at hib
          rw [List.all_eq_true] at hib
          have h4 := hib kv hkv3
          rw [Bool.and_eq_true] at h4
          rw [Bool.and_eq_true]
          refine ⟨?_, ?_⟩
          · have h5 := of_decide_eq_true h4.1
            exact decide_eq_true (by omega)
          · rw [List.all_eq_true] at h4 ⊢
            intro c hc
            have h6 := of_decide_eq_true (h4.2 c hc)
            exact decide_eq_true (by omega)
        · rw [hkv3]
          rw [Bool.and_eq_true]
          constructor
          · exact decide_eq_true (by omega)
          · rw [List.all_eq_true]
            intro c hc
            dsimp only at hc
            rcases List.mem_append.mp hc with hc2 | hc2
            · have h6 := hpbound.2 c hc2
              exact decide_eq_true (by omega)
            · have hc3 : c = s.nextId := by simpa using hc2
              exact decide_eq_true (by omega)
      · rw [hkv2]
        rw [Bool.and_eq_true]
        constructor
        · exact decide_eq_true (by omega)
        · rw [List.all_eq_true]
          intro c hc
          simp [createNode] at hc
    · rw [← h2]
      unfold keysMatch
      dsimp only
      rw [List.all_eq_true]
      intro kv hkv
      rcases setNode_mem _ _ _ _ hkv with hkv2 | hkv2
      · rcases setNode_mem _ _ _ _ hkv2 with hkv3 | hkv3
        · unfold keysMatch at hkm
          rw [List.all_eq_true] at hkm
          exact hkm kv hkv3
        · rw [hkv3]
          exact decide_eq_true hpid
      · rw [hkv2]
        exact decide_eq_true rfl
    · rw [← h2]
      dsimp only
      omega
    · rw [← h2]
      dsimp only
      omega
    · rw [← h2]
      dsimp only
      have hqnew : ¬s.nextId = q := by omega
      rw [lookupNode_setNode, if_neg hqnew, lookupNode_setNode]
      by_cases hpq : p = q
      · rw [if_pos hpq]
        refine ⟨_, rfl, ?_⟩
        dsimp only
        rw [List.count_append]
        have hwp : w0 = parent := by
          rw [hpq] at hplook
          rw [hw0] at hplook
          injection hplook
        subst hwp
        rw [hcnt0]
        have hz : List.count j [s.nextId] = 0 := by
          apply count_eq_zero_of_ne
          intro c hc
          have hc2 : c = s.nextId := by simpa using hc
          omega
        rw [hz]
      · rw [if_neg hpq]
        exact ⟨w0, hw0, hcnt0⟩

theorem applyAdd_preserves (c : MutCmd) (s s1 : TreeState) (q j : Nat)
    (hadd : isAdd c = true)
    (hib : idsBounded s = true) (hkm : keysMatch s = true)
    (hj : j < s.nextId) (hq : q < s.nextId)
    (hcount : ∃ w, lookupNode s.nodes q = some w ∧ List.count j w.childrenIds = 1)
    (h : applyMut c s = some s1) :
    idsBounded s1 = true ∧ keysMatch s1 = true ∧ j < s1.nextId ∧ q < s1.nextId ∧
    ∃ w, lookupNode s1.nodes q = some w ∧ List.count j w.childrenIds = 1 := by
  cases c with
  | child p t now => exact addChild_step_preserves s s1 q j p t now hib hkm hj hq hcount h
  | sibling n t now =>
    unfold applyMut at h
    dsimp only at h
    cases ha : assertNode s n with
    | none =>
      rw [addSibling_err s n t now ha] at h
      cases h
    | some node =>
      rw [addSibling_ok s n t now node ha] at h
      exact addChild_step_preserves s s1 q j _ t now hib hkm hj hq hcount h
  | rename n t now => cases hadd
  | complete n now => cases hadd
  | delete n now => cases hadd

theorem runAdds_preserves (cs : List MutCmd) : ∀ (s sfin : TreeState) (q j : Nat),
    cs.all isAdd = true → idsBounded s = true → keysMatch s = true →
    j < s.nextId → q < s.nextId →
    (∃ w, lookupNode s.nodes q = some w ∧ List.count j w.childrenIds = 1) →
    runMut s cs = some sfin →
    ∃ w, lookupNode sfin.nodes q = some w ∧ List.count j w.childrenIds = 1 := by
  induction cs with
  | nil =>
    intro s sfin q j hadds hib hkm hj hq hcount h
    unfold runMut at h
    injection h with h2
    rw [← h2]
    exact hcount
  | cons c cs ih =>
    intro s sfin q j hadds hib hkm hj hq hcount h
    rw [List.all_cons, Bool.and_eq_true] at hadds
    unfold runMut at h
    cases hc : applyMut c s with
    | none =>
      rw [hc] at h
      cases h
    | some s1 =>
      rw [hc] at h
      dsimp only at h
      obtain ⟨h1, h2, h3, h4, h5⟩ :=
        applyAdd_preserves c s s1 q j hadds.1 hib hkm hj hq hcount hc
      exact ih s1 sfin q j hadds.2 h1 h2 h3 h4 h5 h

/-- C6: `addChild` fails with NodeNotFound exactly when the parent id does
not resolve to an active node; on success it creates a fresh active node
whose parentId is the resolved parent's id (the id passed, in an id-keyed
map), appended as the last element of that parent's childrenIds where it
appears exactly once; the focus moves to the new node; `addSibling`
resolves the node's parent (the root when it has none) and behaves exactly
as `addChild` on that parent; and across any further sequence of
addChild/addSibling calls an already-allocated child reference keeps
appearing exactly once in its parent's childrenIds. -/
theorem C6_add_child_sibling (s : TreeState) :
    (∀ p t now, assertNode s p = none → addChild s p t now = .err (.nodeNotFound p) s) ∧
    (∀ p t now parent, assertNode s p = some parent →
      ∃ st, addChild s p t now = .ok s.nextId st ∧
        st.focusedNodeId = s.nextId ∧
        lookupNode st.nodes s.nextId = some (createNode s.nextId (some parent.id) t now) ∧
        (createNode s.nextId (some parent.id) t now).status = .active ∧
        (createNode s.nextId (some parent.id) t now).parentId = some parent.id ∧
        (keysMatch s = true → parent.id = p) ∧
        (idsBounded s = true →
          lookupNode st.nodes p = some { parent with
            childrenIds := parent.childrenIds ++ [s.nextId]
            updatedAt := now } ∧
          List.count s.nextId (parent.childrenIds ++ [s.nextId]) = 1)) ∧
    (∀ n t now, assertNode s n = none → addSibling s n t now = .err (.nodeNotFound n) s) ∧
    (∀ n t now node, assertNode s n = some node →
      addSibling s n t now = addChild s (node.parentId.getD s.rootId) t now) ∧
    (∀ cs sfin q j, cs.all isAdd = true →
      idsBounded s = true → keysMatch s = true → j < s.nextId → q < s.nextId →
      (∃ w, lookupNode s.nodes q = some w ∧ List.count j w.childrenIds = 1) →
      runMut s cs = some sfin →
      ∃ w, lookupNode sfin.nodes q = some w ∧ List.count j w.childrenIds = 1) := by
  refine ⟨?_, ?_, ?_, ?_, ?_⟩
  · intro p t now ha
    exact addChild_err s p t now ha
  · intro p t now parent ha
    refine ⟨_, addChild_ok s p t now parent ha, rfl, ?_, rfl, rfl, ?_, ?_⟩
    · dsimp only
      rw [lookupNode_setNode, if_pos rfl]
    · intro hkm
      exact keysMatch_lookup s hkm p parent (assertNode_some s p parent ha).1
    · intro hib
      have hplook := (assertNode_some s p parent ha).1
      have hpbound := idsBounded_lookup s hib p parent hplook
      constructor
      · dsimp only
        have hpnew : ¬s.nextId = p := by
          have := hpbound.1
          omega
        rw [lookupNode_setNode, if_neg hpnew, lookupNode_setNode, if_pos rfl]
      · rw [List.count_append]
        have hz : List.count s.nextId parent.childrenIds = 0 := by
          apply count_eq_zero_of_ne
          intro c hc
          have := hpbound.2 c hc
          omega
        rw [hz]
        simp
  · intro n t now ha
    exact addSibling_err s n t now ha
  · intro n t now node ha
    exact addSibling_ok s n t now node ha
  · intro cs sfin q j hadds hib hkm hj hq hcount h
    exact runAdds_preserves cs s sfin q j hadds hib hkm hj hq hcount h

/-- Witness for C6: adding a second child under the sample root allocates
id 3, appends it once to the root's children, and a further addChild
sequence keeps the first child's single occurrence intact. -/
theorem C6_witness :
    (∃ st, addChild sampleTwo 1 "task b" 4 = .ok sampleTwo.nextId st ∧
      st.focusedNodeId = sampleTwo.nextId ∧
      lookupNode st.nodes sampleTwo.nextId =
        some (createNode sampleTwo.nextId (some sampleRootNode.id) "task b" 4) ∧
      (createNode sampleTwo.nextId (some sampleRootNode.id) "task b" 4).status = .active ∧
      (createNode sampleTwo.nextId (some sampleRootNode.id) "task b" 4).parentId =
        some sampleRootNode.id ∧
      (keysMatch sampleTwo = true → sampleRootNode.id = 1) ∧
      (idsBounded sampleTwo = true →
        lookupNode st.nodes 1 = some { sampleRootNode with
          childrenIds := sampleRootNode.childrenIds ++ [sampleTwo.nextId]
          updatedAt := 4 } ∧
        List.count sampleTwo.nextId (sampleRootNode.childrenIds ++ [sampleTwo.nextId]) = 1)) ∧
    (∃ w, lookupNode (optOpState (some (addChild sampleTwo 1 "task c" 5))).nodes 1 = some w ∧
      List.count 2 w.childrenIds = 1) :=
  ⟨(C6_add_child_sibling sampleTwo).2.1 1 "task b" 4 sampleRootNode (by decide),
    (C6_add_child_sibling sampleTwo).2.2.2.2 [MutCmd.child 1 "task c" 5]
      (optOpState (some (addChild sampleTwo 1 "task c" 5))) 1 2 (by decide) (by decide)
      (by decide) (by decide) (by decide)
      ⟨sampleRootNode, by decide, by decide⟩ (by decide)⟩
